import Mathlib

/-!
# CryptoNight slow hash (`src/crypto/slow-hash.c`)

A shallow embedding of `slow-hash.c`.  Bytes are natural numbers below 256, a
buffer is a `List Nat`, a `uint64_t` is a natural number reduced modulo `2 ^ 64`
and an `__m128i` is a natural number reduced modulo `2 ^ 128`.  All loads and
stores are little-endian (the file is x86 only: it includes `emmintrin.h`).

The Keccak sponge, the four finaliser hashes, the OpenAES key schedule, the
`aesenc` instruction and the software AES of `aesb.c` are not part of
`slow-hash.c`; they are the fields of `Ext`.
-/

namespace SlowHash

/-! ## Constants (lines 60-69) -/

/-- Size of the full scratchpad: `#define MEMORY (1 << 21)`. -/
def MEMORY : Nat := 1 <<< 21

/-- Size of the light scratchpad: `#define MEMORY_DARK (1 << 19)`. -/
def MEMORY_DARK : Nat := 1 <<< 19

/-- Iteration count of the full mode: `#define ITER (1 << 20)`. -/
def ITER : Nat := 1 <<< 20

/-- Iteration count of the light mode: `#define ITER_DARK (1 << 18)`. -/
def ITER_DARK : Nat := 1 <<< 18

/-- Bytes in an AES block. -/
def AES_BLOCK_SIZE : Nat := 16

/-- Bytes in an AES key. -/
def AES_KEY_SIZE : Nat := 32

/-- Blocks in the rolling `text` state. -/
def INIT_SIZE_BLK : Nat := 8

/-- Bytes in the rolling `text` state. -/
def INIT_SIZE_BYTE : Nat := INIT_SIZE_BLK * AES_BLOCK_SIZE

/-- Blocks in the full scratchpad. -/
def TOTALBLOCKS : Nat := MEMORY / AES_BLOCK_SIZE

/-- Blocks in the light scratchpad. -/
def TOTALBLOCKS_DARK : Nat := MEMORY_DARK / AES_BLOCK_SIZE

/-! ## Little-endian loads and stores -/

/-- Little-endian value of a byte string. -/
def loadLE (bs : List Nat) : Nat :=
  bs.foldr (fun b acc => b + 256 * acc) 0

/-- The `n` little-endian bytes of `v`. -/
def storeLE : Nat → Nat → List Nat
  | 0, _ => []
  | n + 1, v => (v % 256) :: storeLE n (v / 256)

/-- Bytes `off .. off + n` of a buffer. -/
def readBytes (m : List Nat) (off n : Nat) : List Nat :=
  (m.drop off).take n

/-- The buffer `m` after the bytes `src` were stored at offset `off`. -/
def writeBytes (m : List Nat) (off : Nat) (src : List Nat) : List Nat :=
  m.take off ++ src ++ m.drop (off + src.length)

/-- The C library call `memcpy(dst + doff, src + soff, n)`, as the new contents of `dst`. -/
def memcpy (dst : List Nat) (doff : Nat) (src : List Nat) (soff n : Nat) : List Nat :=
  writeBytes dst doff (readBytes src soff n)

/-- The read `U64(x)[i]`: the `i`-th 64-bit limb of the buffer `x`. -/
def U64 (x : List Nat) (i : Nat) : Nat :=
  loadLE (readBytes x (8 * i) 8) % 2 ^ 64

/-- The eight bytes a store through `U64(x)[i] = v` writes. -/
def store64 (v : Nat) : List Nat :=
  storeLE 8 v

/-- The read `*R128(&x[i])`: the `i`-th 128-bit word of the buffer `x`. -/
def R128 (x : List Nat) (i : Nat) : Nat :=
  loadLE (readBytes x (16 * i) 16) % 2 ^ 128

/-- The intrinsic `_mm_loadu_si128(R128(p))`: the 128-bit value of the 16 bytes at `p`. -/
def mm_loadu_si128 (p : List Nat) : Nat :=
  R128 p 0

/-- The 16 bytes the intrinsic `_mm_storeu_si128` writes for the value `v`. -/
def mm_storeu_si128 (v : Nat) : List Nat :=
  storeLE 16 v

/-- An array of `n` bytes that was declared and not initialised: it holds whatever the
memory `junk` held (zero where `junk` is too short to say). -/
def uninit (n : Nat) (junk : List Nat) : List Nat :=
  junk.take n ++ List.replicate (n - junk.length) 0

/-- The loop `for (i = 0; i < n; i++) body`, on the state `s`. -/
def forLoop {σ : Type} (n : Nat) (body : Nat → σ → σ) (s : σ) : σ :=
  (List.range n).foldl (fun s i => body i s) s

/-- A block: sixteen bytes. -/
def IsBlock (x : List Nat) : Prop :=
  x.length = 16 ∧ ∀ v ∈ x, v < 256

instance (x : List Nat) : Decidable (IsBlock x) := by
  unfold IsBlock
  infer_instance

/-- Bytewise exclusive or of two byte strings. -/
def xorBytes (x y : List Nat) : List Nat :=
  List.zipWith (fun u v => u ^^^ v) x y

/-! ## Scratchpad index (line 70) -/

/-- The macro `state_index(x, dark)`:
`(((*((uint64_t *)x) >> 4) & ((dark ? TOTALBLOCKS_DARK : TOTALBLOCKS) - 1)) << 4)`. -/
def state_index (x : List Nat) (dark : Int) : Nat :=
  (((U64 x 0 >>> 4) &&& ((if dark ≠ 0 then TOTALBLOCKS_DARK else TOTALBLOCKS) - 1)) <<< 4)
    % 2 ^ 64

/-! ## Block primitives (lines 104-144) -/

/-- Modelled from the spec: `mul128` of `common/int-util.h`, which is not under `src/`.  It
returns the low half of the full unsigned 64 x 64 product and stores the high half through
its third argument; the pair is `(lo, hi)`. -/
def mul128 (a b : Nat) : Nat × Nat :=
  ((a * b) % 2 ^ 64, (a * b) / 2 ^ 64 % 2 ^ 64)

/-- The function `mul(a, b, res)`; the value is the 16 bytes written to `res`. -/
def mul (a b : List Nat) : List Nat :=
  let a0 := U64 a 0
  let b0 := U64 b 0
  let lohi := mul128 a0 b0
  let lo := lohi.1
  let hi := lohi.2
  store64 hi ++ store64 lo

/-- The function `sum_half_blocks(a, b)`; the value is the contents of `a` and of `b`
afterwards. -/
def sum_half_blocks (a b : List Nat) : List Nat × List Nat :=
  let a0 := U64 a 0
  let a1 := U64 a 1
  let b0 := U64 b 0
  let b1 := U64 b 1
  let a0 := (a0 + b0) % 2 ^ 64
  let a1 := (a1 + b1) % 2 ^ 64
  (store64 a0 ++ store64 a1, b)

/-- The function `swap_blocks(a, b)`; the value is the contents of `a` and of `b`
afterwards. -/
def swap_blocks (a b : List Nat) : List Nat × List Nat :=
  let t := store64 (U64 a 0) ++ store64 (U64 a 1)
  let a := store64 (U64 b 0) ++ store64 (U64 b 1)
  let b := store64 (U64 t 0) ++ store64 (U64 t 1)
  (a, b)

/-- The function `xor_blocks(a, b)`; the value is the contents of `a` and of `b`
afterwards. -/
def xor_blocks (a b : List Nat) : List Nat × List Nat :=
  (store64 (U64 a 0 ^^^ U64 b 0) ++ store64 (U64 a 1 ^^^ U64 b 1), b)

/-! ## Collaborators and memory -/

/-- The code `slow-hash.c` calls and does not define.  A function that fills a buffer is
given as the bytes it writes. -/
structure Ext where
  /-- The bytes `hash_process(&state.hs, data, length)` leaves in the 200-byte state. -/
  hash_process : List Nat → List Nat
  /-- The bytes `hash_permutation(&state.hs)` leaves in the state, from the state before. -/
  hash_permutation : List Nat → List Nat
  /-- The digest `hash_extra_blake(data, length, hash)` writes. -/
  hash_extra_blake : List Nat → List Nat
  /-- The digest `hash_extra_groestl(data, length, hash)` writes. -/
  hash_extra_groestl : List Nat → List Nat
  /-- The digest `hash_extra_jh(data, length, hash)` writes. -/
  hash_extra_jh : List Nat → List Nat
  /-- The digest `hash_extra_skein(data, length, hash)` writes. -/
  hash_extra_skein : List Nat → List Nat
  /-- The bytes `aes_ctx->key->exp_data` (all `exp_data_len` of them) after
  `oaes_key_import_data(aes_ctx, key, AES_KEY_SIZE)`, as a function of the 32 key bytes. -/
  oaes_key_import_data : List Nat → List Nat
  /-- The instruction `_mm_aesenc_si128(d, k)`. -/
  mm_aesenc_si128 : Nat → Nat → Nat
  /-- The 16 bytes `aesb_single_round(in, out, expandedKey)` writes to `out`. -/
  aesb_single_round : List Nat → List Nat → List Nat
  /-- The 16 bytes `aesb_pseudo_round(in, out, expandedKey)` writes to `out`. -/
  aesb_pseudo_round : List Nat → List Nat → List Nat

/-- What `check_aes_hw` sees of the machine: its own static variable and `cpuid`. -/
structure Cpu where
  /-- The static `supported` at the time of the call (`-1` before the first call). -/
  supported : Int
  /-- The four registers `cpuid(info, x)` stores in `info`, as 32-bit patterns. -/
  cpuid : Nat → List Nat

/-- The buffers `cn_slow_hash_internal` works on.  At entry `long_state` is the buffer the
caller passes and the others hold whatever the stack held. -/
structure Frame where
  /-- The `union cn_slow_hash_state state`: 200 bytes; `k` is bytes 0..64 and `init` is
  bytes 64..192. -/
  state : List Nat
  /-- The local `uint8_t text[INIT_SIZE_BYTE]`. -/
  text : List Nat
  /-- The local `uint8_t a[AES_BLOCK_SIZE]`. -/
  a : List Nat
  /-- The local `uint8_t b[AES_BLOCK_SIZE]`. -/
  b : List Nat
  /-- The local `uint8_t d[AES_BLOCK_SIZE]`. -/
  d : List Nat
  /-- The local `uint8_t expandedKey[256]`. -/
  expandedKey : List Nat
  /-- The scratchpad `uint8_t *long_state`. -/
  long_state : List Nat
  /-- The output buffer `char *hash`. -/
  hash : List Nat

/-! ## AES probe and hardware pseudo-round (lines 146-178) -/

/-- The function `check_aes_hw()`: its return value. -/
def check_aes_hw (cpu : Cpu) : Int :=
  if cpu.supported ≥ 0 then
    cpu.supported
  else
    (((cpu.cpuid 1).getD 2 0 &&& (1 <<< 25) : Nat) : Int)

/-- The function `aesni_pseudo_round(in, out, expandedKey)`; the value is the 16 bytes
written to `out`. -/
def aesni_pseudo_round (aesenc : Nat → Nat → Nat) (inp expandedKey : List Nat) : List Nat :=
  let k := expandedKey
  let d := mm_loadu_si128 inp
  let d := aesenc d (R128 k 0)
  let d := aesenc d (R128 k 1)
  let d := aesenc d (R128 k 2)
  let d := aesenc d (R128 k 3)
  let d := aesenc d (R128 k 4)
  let d := aesenc d (R128 k 5)
  let d := aesenc d (R128 k 6)
  let d := aesenc d (R128 k 7)
  let d := aesenc d (R128 k 8)
  let d := aesenc d (R128 k 9)
  mm_storeu_si128 d

/-! ## The hash (lines 180-305) -/

/-- The finaliser table `extra_hashes[4]` (lines 197-200). -/
def extra_hashes (E : Ext) : List (List Nat → List Nat) :=
  [E.hash_extra_blake, E.hash_extra_groestl, E.hash_extra_jh, E.hash_extra_skein]

/-- Lines 202-209: absorb the input, copy `state.init` to `text`, expand AES key 0. -/
def cn_absorb (E : Ext) (data : List Nat) (m : Frame) : Frame :=
  let m := { m with state := E.hash_process data }
  -- memcpy(text, state.init, INIT_SIZE_BYTE) overwrites all of text
  let m := { m with text := readBytes m.state 64 INIT_SIZE_BYTE }
  let exp_data := E.oaes_key_import_data (readBytes m.state 0 AES_KEY_SIZE)
  { m with expandedKey := memcpy m.expandedKey 0 exp_data 0 exp_data.length }

/-- Lines 215-220: one pass of the fill loop on the hardware path. -/
def fill_body_aesni (E : Ext) (i : Nat) (m : Frame) : Frame :=
  let m := forLoop INIT_SIZE_BLK (fun j m =>
    { m with
      text := writeBytes m.text (AES_BLOCK_SIZE * j)
        (aesni_pseudo_round E.mm_aesenc_si128
          (readBytes m.text (AES_BLOCK_SIZE * j) AES_BLOCK_SIZE) m.expandedKey) }) m
  { m with long_state := memcpy m.long_state (i * INIT_SIZE_BYTE) m.text 0 INIT_SIZE_BYTE }

/-- Lines 227-232: one pass of the fill loop on the software path. -/
def fill_body_aesb (E : Ext) (i : Nat) (m : Frame) : Frame :=
  let m := forLoop INIT_SIZE_BLK (fun j m =>
    { m with
      text := writeBytes m.text (AES_BLOCK_SIZE * j)
        (E.aesb_pseudo_round
          (readBytes m.text (AES_BLOCK_SIZE * j) AES_BLOCK_SIZE) m.expandedKey) }) m
  { m with long_state := memcpy m.long_state (i * INIT_SIZE_BYTE) m.text 0 INIT_SIZE_BYTE }

/-- Lines 211-234: fill the scratchpad. -/
def cn_fill (E : Ext) (useAes dark : Int) (m : Frame) : Frame :=
  if useAes ≠ 0 then
    forLoop ((if dark ≠ 0 then MEMORY_DARK else MEMORY) / INIT_SIZE_BYTE) (fill_body_aesni E) m
  else
    forLoop ((if dark ≠ 0 then MEMORY_DARK else MEMORY) / INIT_SIZE_BYTE) (fill_body_aesb E) m

/-- Lines 236-239: the registers `a` and `b` from the key material `state.k`. -/
def cn_init_ab (m : Frame) : Frame :=
  let k := m.state
  let a0 := U64 (k.drop 0) 0 ^^^ U64 (k.drop 32) 0
  let a1 := U64 (k.drop 0) 1 ^^^ U64 (k.drop 32) 1
  let b0 := U64 (k.drop 16) 0 ^^^ U64 (k.drop 48) 0
  let b1 := U64 (k.drop 16) 1 ^^^ U64 (k.drop 48) 1
  { m with a := store64 a0 ++ store64 a1, b := store64 b0 ++ store64 b1 }

/-- Lines 243-256: the first half of a pass of the mixing loop. -/
def mix_iteration1 (E : Ext) (useAes dark : Int) (m : Frame) : Frame :=
  let p := state_index m.a dark
  let m :=
    if useAes ≠ 0 then
      { m with
        long_state := writeBytes m.long_state p
          (mm_storeu_si128 (E.mm_aesenc_si128
            (mm_loadu_si128 (readBytes m.long_state p AES_BLOCK_SIZE))
            (mm_loadu_si128 m.a))) }
    else
      { m with
        long_state := writeBytes m.long_state p
          (E.aesb_single_round (readBytes m.long_state p AES_BLOCK_SIZE) m.a) }
  let m := { m with b := (xor_blocks m.b (readBytes m.long_state p AES_BLOCK_SIZE)).1 }
  let r := swap_blocks m.b (readBytes m.long_state p AES_BLOCK_SIZE)
  let m := { m with b := r.1, long_state := writeBytes m.long_state p r.2 }
  let r := swap_blocks m.a m.b
  { m with a := r.1, b := r.2 }

/-- Lines 258-265: the second half of a pass of the mixing loop. -/
def mix_iteration2 (dark : Int) (m : Frame) : Frame :=
  let p := state_index m.a dark
  let m := { m with d := mul m.a (readBytes m.long_state p AES_BLOCK_SIZE) }
  let m := { m with b := (sum_half_blocks m.b m.d).1 }
  let r := swap_blocks m.b (readBytes m.long_state p AES_BLOCK_SIZE)
  let m := { m with b := r.1, long_state := writeBytes m.long_state p r.2 }
  let m := { m with b := (xor_blocks m.b (readBytes m.long_state p AES_BLOCK_SIZE)).1 }
  let r := swap_blocks m.a m.b
  { m with a := r.1, b := r.2 }

/-- Lines 241-266: the mixing loop. -/
def cn_mix (E : Ext) (useAes dark : Int) (m : Frame) : Frame :=
  forLoop ((if dark ≠ 0 then ITER_DARK else ITER) / 2)
    (fun _ m => mix_iteration2 dark (mix_iteration1 E useAes dark m)) m

/-- Lines 275-279: one pass of the re-absorb loop on the hardware path. -/
def reabsorb_body_aesni (E : Ext) (i : Nat) (m : Frame) : Frame :=
  forLoop INIT_SIZE_BLK (fun j m =>
    let m := { m with
      text := writeBytes m.text (j * AES_BLOCK_SIZE)
        (xor_blocks (readBytes m.text (j * AES_BLOCK_SIZE) AES_BLOCK_SIZE)
          (readBytes m.long_state (i * INIT_SIZE_BYTE + j * AES_BLOCK_SIZE)
            AES_BLOCK_SIZE)).1 }
    { m with
      text := writeBytes m.text (j * AES_BLOCK_SIZE)
        (aesni_pseudo_round E.mm_aesenc_si128
          (readBytes m.text (j * AES_BLOCK_SIZE) AES_BLOCK_SIZE) m.expandedKey) }) m

/-- Lines 286-290: one pass of the re-absorb loop on the software path. -/
def reabsorb_body_aesb (E : Ext) (i : Nat) (m : Frame) : Frame :=
  forLoop INIT_SIZE_BLK (fun j m =>
    let m := { m with
      text := writeBytes m.text (j * AES_BLOCK_SIZE)
        (xor_blocks (readBytes m.text (j * AES_BLOCK_SIZE) AES_BLOCK_SIZE)
          (readBytes m.long_state (i * INIT_SIZE_BYTE + j * AES_BLOCK_SIZE)
            AES_BLOCK_SIZE)).1 }
    { m with
      text := writeBytes m.text (AES_BLOCK_SIZE * j)
        (E.aesb_pseudo_round
          (readBytes m.text (AES_BLOCK_SIZE * j) AES_BLOCK_SIZE) m.expandedKey) }) m

/-- Lines 268-292: reload `text`, expand AES key 1, re-absorb the scratchpad. -/
def cn_reabsorb (E : Ext) (useAes dark : Int) (m : Frame) : Frame :=
  -- memcpy(text, state.init, INIT_SIZE_BYTE) overwrites all of text
  let m := { m with text := readBytes m.state 64 INIT_SIZE_BYTE }
  let exp_data := E.oaes_key_import_data (readBytes m.state 32 AES_KEY_SIZE)
  let m := { m with expandedKey := memcpy m.expandedKey 0 exp_data 0 exp_data.length }
  if useAes ≠ 0 then
    forLoop ((if dark ≠ 0 then MEMORY_DARK else MEMORY) / INIT_SIZE_BYTE)
      (reabsorb_body_aesni E) m
  else
    forLoop ((if dark ≠ 0 then MEMORY_DARK else MEMORY) / INIT_SIZE_BYTE)
      (reabsorb_body_aesb E) m

/-- Line 295: `memcpy(state.init, text, INIT_SIZE_BYTE)`; the result holds the state that
is handed to `hash_permutation`. -/
def cn_store_text (m : Frame) : Frame :=
  { m with state := memcpy m.state 64 m.text 0 INIT_SIZE_BYTE }

/-- Lines 296-304: permute the state and run one finaliser on its 200 bytes. -/
def cn_finish (E : Ext) (dark : Int) (m : Frame) : Frame :=
  let m := { m with state := E.hash_permutation m.state }
  if dark ≠ 0 then
    { m with hash := E.hash_extra_blake (readBytes m.state 0 200) }
  else
    { m with
      hash :=
        (extra_hashes E).get ⟨m.state.getD 0 0 &&& 3,
            Nat.lt_of_le_of_lt Nat.and_le_right (Nat.lt_succ_self 3)⟩
          (readBytes m.state 0 200) }

/-- The function `cn_slow_hash_internal(data, length, hash, dark, long_state)`: the
buffers at return, from the buffers `m` at entry; `data` is the `length` input bytes and
the digest is the field `hash` of the result.  The value `check_aes_hw` caches in its
static variable is the one it returns, so a later call takes the same path. -/
def cn_slow_hash_internal (E : Ext) (cpu : Cpu) (data : List Nat) (dark : Int)
    (m : Frame) : Frame :=
  let useAes := check_aes_hw cpu
  let m := cn_absorb E data m
  let m := cn_fill E useAes dark m
  let m := cn_init_ab m
  let m := cn_mix E useAes dark m
  let m := cn_reabsorb E useAes dark m
  let m := cn_store_text m
  cn_finish E dark m

/-- The function `cn_slow_hash_internal_512kb(data, length, hash)` (lines 307-311). -/
def cn_slow_hash_internal_512kb (E : Ext) (cpu : Cpu) (data : List Nat) (m : Frame) : Frame :=
  let long_state := uninit MEMORY_DARK m.long_state
  cn_slow_hash_internal E cpu data 1 { m with long_state := long_state }

/-- The function `cn_slow_hash_internal_2048kb(data, length, hash)` (lines 313-317). -/
def cn_slow_hash_internal_2048kb (E : Ext) (cpu : Cpu) (data : List Nat) (m : Frame) : Frame :=
  let long_state := uninit MEMORY m.long_state
  cn_slow_hash_internal E cpu data 0 { m with long_state := long_state }

/-- The function `cn_slow_hash(data, length, hash, dark)` (lines 319-328). -/
def cn_slow_hash (E : Ext) (cpu : Cpu) (data : List Nat) (dark : Int) (m : Frame) : Frame :=
  if dark = 1 then
    cn_slow_hash_internal_512kb E cpu data m
  else
    cn_slow_hash_internal_2048kb E cpu data m

/-! ## Definitions used to state the properties -/

/-- The pieces `c 0, c 1, ..., c (n - 1)` laid end to end. -/
def tiles (n : Nat) (c : Nat → List Nat) : List Nat :=
  (List.range n).flatMap c

/-- The 128-byte `text` after lane `j` (bytes `16 j .. 16 j + 16`) was replaced by
`g j` of it, for each of the eight lanes. -/
def map_lanes (g : Nat → List Nat → List Nat) (text : List Nat) : List Nat :=
  tiles 8 (fun j => g j (readBytes text (16 * j) 16))

/-- The pseudo-round in the words of the specification: ten chained `aesenc` rounds over
the round keys 0..9 of the expanded key. -/
def spec_pseudo_round (aesenc : Nat → Nat → Nat) (inp expandedKey : List Nat) : List Nat :=
  mm_storeu_si128
    ((List.range 10).foldl (fun d r => aesenc d (R128 expandedKey r)) (mm_loadu_si128 inp))

/-- The single round in the words of the specification: one `aesenc` with the 16-byte
`key` as the round key. -/
def spec_single_round (aesenc : Nat → Nat → Nat) (inp key : List Nat) : List Nat :=
  mm_storeu_si128 (aesenc (mm_loadu_si128 inp) (mm_loadu_si128 key))

/-- The pseudo-round of the path in use: `aesni_pseudo_round` when `useAes` is non-zero,
`aesb_pseudo_round` otherwise. -/
def pseudo_round (E : Ext) (useAes : Int) (inp expandedKey : List Nat) : List Nat :=
  if useAes ≠ 0 then aesni_pseudo_round E.mm_aesenc_si128 inp expandedKey
  else E.aesb_pseudo_round inp expandedKey

/-- The scratchpad size of a mode: `dark ? MEMORY_DARK : MEMORY`. -/
def scratchpad_size (dark : Int) : Nat :=
  if dark ≠ 0 then MEMORY_DARK else MEMORY

/-- The expanded key buffer after `memcpy(expandedKey, exp_data, exp_data_len)` for the
32-byte `key`. -/
def expand_key (E : Ext) (key expandedKey : List Nat) : List Nat :=
  memcpy expandedKey 0 (E.oaes_key_import_data key) 0 (E.oaes_key_import_data key).length

/-- One pass of the fill loop, for either pseudo-round `round` (lines 215-220 and 227-232
read the same but for the function called). -/
def fill_gen (round : List Nat → List Nat → List Nat) (i : Nat) (m : Frame) : Frame :=
  let m := forLoop INIT_SIZE_BLK (fun j m =>
    { m with
      text := writeBytes m.text (AES_BLOCK_SIZE * j)
        (round (readBytes m.text (AES_BLOCK_SIZE * j) AES_BLOCK_SIZE) m.expandedKey) }) m
  { m with long_state := memcpy m.long_state (i * INIT_SIZE_BYTE) m.text 0 INIT_SIZE_BYTE }

/-- The eight lanes of `text` after one pseudo-round each. -/
def round_lanes (round : List Nat → List Nat → List Nat) (ek : List Nat)
    (text : List Nat) : List Nat :=
  map_lanes (fun _ x => round x ek) text

/-- The scratchpad contents the fill phase is specified to produce: chunk `i` holds, in
lane `j`, the pseudo-round with key `ek` applied `i + 1` times to lane `j` of `text`. -/
def filled (round : List Nat → List Nat → List Nat) (ek text : List Nat) (n : Nat) : List Nat :=
  tiles n (fun i => tiles 8 (fun j => (fun x => round x ek)^[i + 1] (readBytes text (16 * j) 16)))

/-- One pass of the re-absorb loop, for either pseudo-round `round` (lines 275-279 and
286-290 read the same but for the function called and the order of a product). -/
def reabsorb_gen (round : List Nat → List Nat → List Nat) (i : Nat) (m : Frame) : Frame :=
  forLoop INIT_SIZE_BLK (fun j m =>
    let m := { m with
      text := writeBytes m.text (j * AES_BLOCK_SIZE)
        (xor_blocks (readBytes m.text (j * AES_BLOCK_SIZE) AES_BLOCK_SIZE)
          (readBytes m.long_state (i * INIT_SIZE_BYTE + j * AES_BLOCK_SIZE)
            AES_BLOCK_SIZE)).1 }
    { m with
      text := writeBytes m.text (j * AES_BLOCK_SIZE)
        (round (readBytes m.text (j * AES_BLOCK_SIZE) AES_BLOCK_SIZE) m.expandedKey) }) m

/-- Lane `j` of `text` as the re-absorb phase is specified to leave it after `n` chunks:
the left fold over `i = 0 .. n - 1` of `t -> round (t XOR scratchpad[i*128 + j*16 .. +16])`,
from `t0`. -/
def reabsorb_lane (round : List Nat → List Nat → List Nat) (ek sp : List Nat) (j : Nat)
    (t0 : List Nat) (n : Nat) : List Nat :=
  (List.range n).foldl
    (fun t i => round (xor_blocks t (readBytes sp (i * 128 + j * 16) 16)).1 ek) t0

/-- The frame at the start of the re-absorb phase (after line 266). -/
def cn_mixed (E : Ext) (useAes dark : Int) (data : List Nat) (m : Frame) : Frame :=
  cn_mix E useAes dark (cn_init_ab (cn_fill E useAes dark (cn_absorb E data m)))

/-- The single round of the path in use (lines 246-252): the `aesenc` instruction when
`useAes` is non-zero, `aesb_single_round` otherwise; the value is the 16 bytes stored in the
scratchpad block. -/
def single_round (E : Ext) (useAes : Int) (inp key : List Nat) : List Nat :=
  if useAes ≠ 0 then
    mm_storeu_si128 (E.mm_aesenc_si128 (mm_loadu_si128 inp) (mm_loadu_si128 key))
  else E.aesb_single_round inp key

/-- Lines 254-256, `xor_blocks(b, p); swap_blocks(b, p); swap_blocks(a, b);`, on the contents
of the registers `a`, `b` and of the scratchpad block `p`; the value is the contents of
`a`, `b` and `p` afterwards. -/
def xor_swap_swap (a b p : List Nat) : List Nat × List Nat × List Nat :=
  let b := (xor_blocks b p).1
  let r := swap_blocks b p
  let b := r.1
  let p := r.2
  let r := swap_blocks a b
  let a := r.1
  let b := r.2
  (a, b, p)

/-- One pass of the mixing loop (lines 243-265). -/
def mix_pass (E : Ext) (useAes dark : Int) (m : Frame) : Frame :=
  mix_iteration2 dark (mix_iteration1 E useAes dark m)

/-! ## Concrete inputs

Stand-ins for the collaborators and a few buffers, on which the definitions above
evaluate. -/

/-- A stand-in for the collaborators: every function has the right output size, and the
software AES agrees with the stand-in `aesenc`. -/
def toyExt : Ext where
  hash_process := fun d => (uninit 200 d).map (fun x => x % 256)
  hash_permutation := fun s => s.reverse
  hash_extra_blake := fun s => 0 :: s.take 31
  hash_extra_groestl := fun s => 1 :: s.take 31
  hash_extra_jh := fun s => 2 :: s.take 31
  hash_extra_skein := fun s => 3 :: s.take 31
  oaes_key_import_data := fun k => (uninit 240 k).map (fun x => x % 256)
  mm_aesenc_si128 := fun d k => (3 * d + k) % 2 ^ 128
  aesb_single_round := fun i k =>
    mm_storeu_si128 ((3 * mm_loadu_si128 i + mm_loadu_si128 k) % 2 ^ 128)
  aesb_pseudo_round := fun i k => aesni_pseudo_round (fun d k => (3 * d + k) % 2 ^ 128) i k

/-- A machine whose `cpuid` reports AES-NI, before the first probe. -/
def cpuAesni : Cpu where
  supported := -1
  cpuid := fun _ => [0, 0, 1 <<< 25, 0]

/-- A machine whose `cpuid` reports no AES-NI, before the first probe. -/
def cpuPlain : Cpu where
  supported := -1
  cpuid := fun _ => [0, 0, 0, 0]

/-- A frame whose buffers are all empty. -/
def emptyFrame : Frame where
  state := []
  text := []
  a := []
  b := []
  d := []
  expandedKey := []
  long_state := []
  hash := []

/-- A frame whose scratchpad is a light-mode array (524288 bytes, not initialised) and
whose other buffers are empty. -/
def lightFrame : Frame :=
  { emptyFrame with long_state := uninit MEMORY_DARK [1, 2, 3] }

/-- A block whose low limb is `2^64 - 1` and whose high limb is 0. -/
def blockMax0 : List Nat := List.replicate 8 255 ++ List.replicate 8 0

/-- A block whose low limb is 1 and whose high limb is 0. -/
def blockOne : List Nat := 1 :: List.replicate 15 0

/-- A block of zeros. -/
def blockZero : List Nat := List.replicate 16 0

/-- A frame in light mode with registers `a = blockOne` and `b = blockMax0`. -/
def mixFrame : Frame :=
  { lightFrame with a := blockOne, b := blockMax0 }

end SlowHash

namespace SlowHash

/-! ## Constants, evaluated -/

theorem MEMORY_eq : MEMORY = 2097152 := by decide

theorem MEMORY_DARK_eq : MEMORY_DARK = 524288 := by decide

theorem TOTALBLOCKS_eq : TOTALBLOCKS = 2 ^ 17 := by decide

theorem TOTALBLOCKS_DARK_eq : TOTALBLOCKS_DARK = 2 ^ 15 := by decide

theorem INIT_SIZE_BYTE_eq : INIT_SIZE_BYTE = 128 := by decide

/-! ## Little-endian loads and stores -/

theorem storeLE_length (n v : Nat) : (storeLE n v).length = n := by
  induction n generalizing v with
  | zero => rfl
  | succ n ih => simp [storeLE, ih]

theorem storeLE_lt (n v : Nat) : ∀ x ∈ storeLE n v, x < 256 := by
  induction n generalizing v with
  | zero => simp [storeLE]
  | succ n ih =>
    intro x hx
    simp only [storeLE, List.mem_cons] at hx
    rcases hx with rfl | hx
    · exact Nat.mod_lt _ (by decide)
    · exact ih _ x hx

theorem loadLE_storeLE (n v : Nat) : loadLE (storeLE n v) = v % 256 ^ n := by
  induction n generalizing v with
  | zero => simp [storeLE, loadLE, Nat.mod_one]
  | succ n ih =>
    have h := ih (v / 256)
    simp only [loadLE] at h
    simp only [storeLE, loadLE, List.foldr_cons, h]
    rw [pow_succ, Nat.mul_comm (256 ^ n) 256, Nat.mod_mul]

theorem storeLE_loadLE (bs : List Nat) (hb : ∀ x ∈ bs, x < 256) :
    storeLE bs.length (loadLE bs) = bs := by
  induction bs with
  | nil => rfl
  | cons b bs ih =>
    have hlt : b < 256 := hb b (List.mem_cons_self _ _)
    have ih2 := ih (fun x hx => hb x (List.mem_cons_of_mem _ hx))
    have e : loadLE (b :: bs) = b + 256 * loadLE bs := rfl
    have h1 : (b + 256 * loadLE bs) % 256 = b := by omega
    have h2 : (b + 256 * loadLE bs) / 256 = loadLE bs := by omega
    simp only [List.length_cons, storeLE, e, h1, h2, ih2]

theorem loadLE_lt (bs : List Nat) (hb : ∀ x ∈ bs, x < 256) : loadLE bs < 256 ^ bs.length := by
  induction bs with
  | nil => simp [loadLE]
  | cons b bs ih =>
    have hlt : b < 256 := hb b (List.mem_cons_self _ _)
    have ih2 := ih (fun x hx => hb x (List.mem_cons_of_mem _ hx))
    have e : loadLE (b :: bs) = b + 256 * loadLE bs := rfl
    rw [e, List.length_cons, pow_succ]
    omega

theorem loadLE_append (xs ys : List Nat) :
    loadLE (xs ++ ys) = loadLE xs + 256 ^ xs.length * loadLE ys := by
  induction xs with
  | nil => simp [loadLE]
  | cons x xs ih =>
    have e1 : loadLE (x :: (xs ++ ys)) = x + 256 * loadLE (xs ++ ys) := rfl
    have e2 : loadLE (x :: xs) = x + 256 * loadLE xs := rfl
    rw [List.cons_append, e1, e2, ih, List.length_cons, pow_succ]
    ring

theorem store64_length (v : Nat) : (store64 v).length = 8 := storeLE_length 8 v

theorem U64_stores_zero (v w : Nat) : U64 (store64 v ++ store64 w) 0 = v % 2 ^ 64 := by
  have h : readBytes (store64 v ++ store64 w) (8 * 0) 8 = store64 v := by
    simp [readBytes, List.take_left', store64_length]
  rw [U64, h, store64, loadLE_storeLE]
  norm_num

theorem U64_stores_one (v w : Nat) : U64 (store64 v ++ store64 w) 1 = w % 2 ^ 64 := by
  have h : readBytes (store64 v ++ store64 w) (8 * 1) 8 = store64 w := by
    simp [readBytes, List.drop_left', store64_length]
  rw [U64, h, store64, loadLE_storeLE]
  norm_num

theorem U64_lt (x : List Nat) (i : Nat) : U64 x i < 2 ^ 64 :=
  Nat.mod_lt _ (by positivity)

/-! ## Scratchpad index -/

theorem state_index_eq (x : List Nat) (dark : Int) :
    state_index x dark
      = 16 * ((U64 x 0 / 16) % (if dark ≠ 0 then TOTALBLOCKS_DARK else TOTALBLOCKS)) := by
  unfold state_index
  split_ifs with h
  · rw [TOTALBLOCKS_DARK_eq, Nat.and_pow_two_sub_one_eq_mod, Nat.shiftLeft_eq,
      Nat.shiftRight_eq_div_pow]
    have : U64 x 0 / 2 ^ 4 % 2 ^ 15 < 2 ^ 15 := Nat.mod_lt _ (by positivity)
    omega
  · rw [TOTALBLOCKS_eq, Nat.and_pow_two_sub_one_eq_mod, Nat.shiftLeft_eq,
      Nat.shiftRight_eq_div_pow]
    have : U64 x 0 / 2 ^ 4 % 2 ^ 17 < 2 ^ 17 := Nat.mod_lt _ (by positivity)
    omega

theorem state_index_add_le (a : List Nat) (dark : Int) :
    state_index a dark + 16 ≤ scratchpad_size dark := by
  rw [state_index_eq]
  unfold scratchpad_size
  by_cases h : dark = 0
  · simp only [h, ne_eq, not_true_eq_false, if_false, TOTALBLOCKS_eq, MEMORY_eq]
    have : U64 a 0 / 16 % 2 ^ 17 < 2 ^ 17 := Nat.mod_lt _ (by positivity)
    omega
  · simp only [h, ne_eq, not_false_eq_true, if_true, TOTALBLOCKS_DARK_eq, MEMORY_DARK_eq]
    have : U64 a 0 / 16 % 2 ^ 15 < 2 ^ 15 := Nat.mod_lt _ (by positivity)
    omega

/-- C1: for every value `a` and both modes the offset `state_index(a, dark)` is a multiple
of 16 and lies below the scratchpad size (2097152 when `dark = 0`, 524288 otherwise), so
the 16-byte block at that offset ends inside the scratchpad. -/
theorem state_index_in_scratchpad (a : List Nat) (dark : Int) :
    16 ∣ state_index a dark
      ∧ state_index a dark < (if dark = 0 then 2097152 else 524288)
      ∧ state_index a dark + 16 ≤ (if dark = 0 then 2097152 else 524288) := by
  rw [state_index_eq]
  by_cases h : dark = 0
  · simp only [h, ne_eq, not_true_eq_false, if_false, if_true, TOTALBLOCKS_eq]
    have : U64 a 0 / 16 % 2 ^ 17 < 2 ^ 17 := Nat.mod_lt _ (by positivity)
    refine ⟨Dvd.intro _ rfl, ?_, ?_⟩ <;> omega
  · simp only [h, ne_eq, not_false_eq_true, if_false, if_true, TOTALBLOCKS_DARK_eq]
    have : U64 a 0 / 16 % 2 ^ 15 < 2 ^ 15 := Nat.mod_lt _ (by positivity)
    refine ⟨Dvd.intro _ rfl, ?_, ?_⟩ <;> omega

/-! ## Block primitives -/

theorem IsBlock_stores (v w : Nat) : IsBlock (store64 v ++ store64 w) := by
  refine ⟨by simp [store64_length], ?_⟩
  intro x hx
  rcases List.mem_append.1 hx with h | h
  · exact storeLE_lt 8 v x h
  · exact storeLE_lt 8 w x h

theorem readBytes_all (x : List Nat) (n : Nat) (h : x.length = n) : readBytes x 0 n = x := by
  simp [readBytes, ← h]

theorem U64_zero_of_block (x : List Nat) (hx : IsBlock x) : U64 x 0 = loadLE (x.take 8) := by
  have hlt : loadLE (x.take 8) < 256 ^ (x.take 8).length :=
    loadLE_lt _ (fun v hv => hx.2 v (List.mem_of_mem_take hv))
  have hl : (x.take 8).length = 8 := by simp [hx.1]
  rw [hl] at hlt
  simp only [U64, readBytes, Nat.mul_zero, List.drop_zero]
  exact Nat.mod_eq_of_lt (by norm_num at hlt ⊢; exact hlt)

theorem U64_one_of_block (x : List Nat) (hx : IsBlock x) : U64 x 1 = loadLE (x.drop 8) := by
  have hlt : loadLE (x.drop 8) < 256 ^ (x.drop 8).length :=
    loadLE_lt _ (fun v hv => hx.2 v (List.mem_of_mem_drop hv))
  have hl : (x.drop 8).length = 8 := by simp [hx.1]
  have ht : List.take 8 (List.drop 8 x) = List.drop 8 x := by
    rw [List.take_of_length_le (by omega)]
  rw [hl] at hlt
  simp only [U64, readBytes, Nat.mul_one, ht]
  exact Nat.mod_eq_of_lt (by norm_num at hlt ⊢; exact hlt)

theorem R128_of_block (x : List Nat) (hx : IsBlock x) :
    R128 x 0 = U64 x 0 + 2 ^ 64 * U64 x 1 := by
  have hsplit : loadLE x = loadLE (x.take 8) + 256 ^ (x.take 8).length * loadLE (x.drop 8) := by
    rw [← loadLE_append, List.take_append_drop]
  have hl : (x.take 8).length = 8 := by simp [hx.1]
  have hlt : loadLE x < 256 ^ x.length := loadLE_lt _ hx.2
  rw [hx.1] at hlt
  rw [U64_zero_of_block x hx, U64_one_of_block x hx, R128, Nat.mul_zero,
    readBytes_all x 16 hx.1, hsplit, hl]
  rw [hsplit, hl] at hlt
  norm_num at hlt ⊢
  omega

/-- C8: `mul(a, b, res)` is a function of the low limbs `a0 = U64(a)[0]` and
`b0 = U64(b)[0]` alone: it writes the bytes of `floor(a0 * b0 / 2^64)` to limb 0 of `res`
and the bytes of `(a0 * b0) mod 2^64` to limb 1, so the limbs of `res` read back as the
high and the low half of the 128-bit product. -/
theorem mul_limbs (a b : List Nat) :
    mul a b = store64 (U64 a 0 * U64 b 0 / 2 ^ 64) ++ store64 (U64 a 0 * U64 b 0 % 2 ^ 64)
      ∧ U64 (mul a b) 0 = U64 a 0 * U64 b 0 / 2 ^ 64
      ∧ U64 (mul a b) 1 = U64 a 0 * U64 b 0 % 2 ^ 64 := by
  have ha := U64_lt a 0
  have hb := U64_lt b 0
  have hhi : U64 a 0 * U64 b 0 / 2 ^ 64 < 2 ^ 64 := by
    apply Nat.div_lt_of_lt_mul
    calc U64 a 0 * U64 b 0 < 2 ^ 64 * U64 b 0 + 2 ^ 64 := by nlinarith
      _ ≤ 2 ^ 64 * 2 ^ 64 := by nlinarith
  have e : mul a b
      = store64 (U64 a 0 * U64 b 0 / 2 ^ 64) ++ store64 (U64 a 0 * U64 b 0 % 2 ^ 64) := by
    simp only [mul, mul128, Nat.mod_eq_of_lt hhi]
  refine ⟨e, ?_, ?_⟩
  · rw [e, U64_stores_zero, Nat.mod_eq_of_lt hhi]
  · rw [e, U64_stores_one, Nat.mod_mod]

/-- C9: for blocks `a` and `b`, `sum_half_blocks(a, b)` leaves in `a` the limbs
`(a0 + b0) mod 2^64` and `(a1 + b1) mod 2^64` and leaves `b` as it was; the new `a` differs
from the 128-bit sum of `a` and `b` exactly when `a0 + b0` carries out of 64 bits. -/
theorem sum_half_blocks_limbs (a b : List Nat) (ha : IsBlock a) (hb : IsBlock b) :
    IsBlock (sum_half_blocks a b).1
      ∧ U64 (sum_half_blocks a b).1 0 = (U64 a 0 + U64 b 0) % 2 ^ 64
      ∧ U64 (sum_half_blocks a b).1 1 = (U64 a 1 + U64 b 1) % 2 ^ 64
      ∧ (sum_half_blocks a b).2 = b
      ∧ (R128 (sum_half_blocks a b).1 0 ≠ (R128 a 0 + R128 b 0) % 2 ^ 128
          ↔ 2 ^ 64 ≤ U64 a 0 + U64 b 0) := by
  have hblk : IsBlock (sum_half_blocks a b).1 := IsBlock_stores _ _
  have h0 : U64 (sum_half_blocks a b).1 0 = (U64 a 0 + U64 b 0) % 2 ^ 64 := by
    simp only [sum_half_blocks, U64_stores_zero, Nat.mod_mod]
  have h1 : U64 (sum_half_blocks a b).1 1 = (U64 a 1 + U64 b 1) % 2 ^ 64 := by
    simp only [sum_half_blocks, U64_stores_one, Nat.mod_mod]
  refine ⟨hblk, h0, h1, rfl, ?_⟩
  rw [R128_of_block _ hblk, R128_of_block a ha, R128_of_block b hb, h0, h1]
  have a0 := U64_lt a 0
  have a1 := U64_lt a 1
  have b0 := U64_lt b 0
  have b1 := U64_lt b 1
  norm_num at a0 a1 b0 b1 ⊢
  omega

/-- Witness for C9: limb 0 carries (`2^64 - 1` plus 1) and the high limb stays 0. -/
theorem sum_half_blocks_limbs_witness :
    IsBlock blockMax0 ∧ IsBlock blockOne
      ∧ IsBlock (sum_half_blocks blockMax0 blockOne).1
      ∧ U64 (sum_half_blocks blockMax0 blockOne).1 0
          = (U64 blockMax0 0 + U64 blockOne 0) % 2 ^ 64
      ∧ U64 (sum_half_blocks blockMax0 blockOne).1 1
          = (U64 blockMax0 1 + U64 blockOne 1) % 2 ^ 64
      ∧ (sum_half_blocks blockMax0 blockOne).2 = blockOne
      ∧ (R128 (sum_half_blocks blockMax0 blockOne).1 0
            ≠ (R128 blockMax0 0 + R128 blockOne 0) % 2 ^ 128
          ↔ 2 ^ 64 ≤ U64 blockMax0 0 + U64 blockOne 0) :=
  ⟨by decide, by decide, sum_half_blocks_limbs blockMax0 blockOne (by decide) (by decide)⟩

/-! ## Exclusive or, bytewise -/

theorem xor_split (a b A B : Nat) (ha : a < 256) (hb : b < 256) :
    (a + 256 * A) ^^^ (b + 256 * B) = (a ^^^ b) + 256 * (A ^^^ B) := by
  have hab : a ^^^ b < 2 ^ 8 := Nat.xor_lt_two_pow (n := 8) ha hb
  apply Nat.eq_of_testBit_eq
  intro i
  have e1 : a + 256 * A = 2 ^ 8 * A + a := by ring
  have e2 : b + 256 * B = 2 ^ 8 * B + b := by ring
  have e3 : (a ^^^ b) + 256 * (A ^^^ B) = 2 ^ 8 * (A ^^^ B) + (a ^^^ b) := by ring
  rw [e1, e2, e3, Nat.testBit_xor, Nat.testBit_mul_pow_two_add _ ha,
    Nat.testBit_mul_pow_two_add _ hb, Nat.testBit_mul_pow_two_add _ hab]
  split_ifs <;> simp [Nat.testBit_xor]

theorem xorBytes_lt (x y : List Nat) (hx : ∀ v ∈ x, v < 256) (hy : ∀ v ∈ y, v < 256) :
    ∀ v ∈ xorBytes x y, v < 256 := by
  induction x generalizing y with
  | nil => simp [xorBytes]
  | cons a x ih =>
    cases y with
    | nil => simp [xorBytes]
    | cons b y =>
      intro v hv
      simp only [xorBytes, List.zipWith_cons_cons, List.mem_cons] at hv
      rcases hv with rfl | hv
      · exact Nat.xor_lt_two_pow (n := 8) (hx a (List.mem_cons_self _ _))
          (hy b (List.mem_cons_self _ _))
      · exact ih y (fun v h => hx v (List.mem_cons_of_mem _ h))
          (fun v h => hy v (List.mem_cons_of_mem _ h)) v hv

theorem loadLE_xorBytes (x y : List Nat) (hl : x.length = y.length)
    (hx : ∀ v ∈ x, v < 256) (hy : ∀ v ∈ y, v < 256) :
    loadLE (xorBytes x y) = loadLE x ^^^ loadLE y := by
  induction x generalizing y with
  | nil =>
    cases y with
    | nil => simp [xorBytes, loadLE]
    | cons b y => simp at hl
  | cons a x ih =>
    cases y with
    | nil => simp at hl
    | cons b y =>
      have hl2 : x.length = y.length := by simpa using hl
      have ih2 := ih y hl2 (fun v h => hx v (List.mem_cons_of_mem _ h))
        (fun v h => hy v (List.mem_cons_of_mem _ h))
      have e1 : loadLE (xorBytes (a :: x) (b :: y)) = (a ^^^ b) + 256 * loadLE (xorBytes x y) :=
        rfl
      have e2 : loadLE (a :: x) = a + 256 * loadLE x := rfl
      have e3 : loadLE (b :: y) = b + 256 * loadLE y := rfl
      rw [e1, e2, e3, ih2, xor_split _ _ _ _ (hx a (List.mem_cons_self _ _))
        (hy b (List.mem_cons_self _ _))]

theorem store64_xor (x y : List Nat) (hx : x.length = 8) (hy : y.length = 8)
    (bx : ∀ v ∈ x, v < 256) (bY : ∀ v ∈ y, v < 256) :
    store64 (loadLE x ^^^ loadLE y) = xorBytes x y := by
  have hl : (xorBytes x y).length = 8 := by simp [xorBytes, hx, hy]
  have h := storeLE_loadLE (xorBytes x y) (xorBytes_lt x y bx bY)
  rw [hl, loadLE_xorBytes x y (by rw [hx, hy]) bx bY] at h
  exact h

theorem stores_xor_eq_xorBytes (x y : List Nat) (hx : IsBlock x) (hy : IsBlock y) :
    store64 (U64 x 0 ^^^ U64 y 0) ++ store64 (U64 x 1 ^^^ U64 y 1) = xorBytes x y := by
  rw [U64_zero_of_block x hx, U64_zero_of_block y hy, U64_one_of_block x hx,
    U64_one_of_block y hy]
  rw [store64_xor (x.take 8) (y.take 8) (by simp [hx.1]) (by simp [hy.1])
      (fun v hv => hx.2 v (List.mem_of_mem_take hv))
      (fun v hv => hy.2 v (List.mem_of_mem_take hv)),
    store64_xor (x.drop 8) (y.drop 8) (by simp [hx.1]) (by simp [hy.1])
      (fun v hv => hx.2 v (List.mem_of_mem_drop hv))
      (fun v hv => hy.2 v (List.mem_of_mem_drop hv))]
  simp only [xorBytes]
  rw [← List.take_zipWith, ← List.drop_zipWith, List.take_append_drop]

theorem xor_blocks_eq_xorBytes (x y : List Nat) (hx : IsBlock x) (hy : IsBlock y) :
    (xor_blocks x y).1 = xorBytes x y :=
  stores_xor_eq_xorBytes x y hx hy

/-! ## Buffers -/

theorem IsBlock_readBytes (m : List Nat) (off : Nat) (hlen : off + 16 ≤ m.length)
    (hb : ∀ v ∈ m, v < 256) : IsBlock (readBytes m off 16) := by
  refine ⟨by simp [readBytes]; omega, ?_⟩
  intro v hv
  exact hb v (List.mem_of_mem_drop (List.mem_of_mem_take hv))

theorem U64_readBytes (k : List Nat) (off i : Nat) (hi : i < 2) :
    U64 (readBytes k off 16) i = U64 (k.drop off) i := by
  have h : 8 ⊓ (16 - 8 * i) = 8 := by omega
  simp only [U64, readBytes, List.drop_take, List.take_take, h]

/-! ## Loops -/

theorem forLoop_zero {σ : Type} (body : Nat → σ → σ) (s : σ) : forLoop 0 body s = s := rfl

theorem forLoop_succ {σ : Type} (n : Nat) (body : Nat → σ → σ) (s : σ) :
    forLoop (n + 1) body s = body n (forLoop n body s) := by
  simp only [forLoop, List.range_succ, List.foldl_append, List.foldl_cons, List.foldl_nil]

theorem forLoop_proj {σ α : Type} (f : σ → α) (n : Nat) (body : Nat → σ → σ) (s : σ)
    (h : ∀ i s, f (body i s) = f s) : f (forLoop n body s) = f s := by
  induction n with
  | zero => rfl
  | succ n ih => rw [forLoop_succ, h, ih]

/-! ## What the fill phase leaves alone -/

theorem fill_body_aesni_state (E : Ext) (i : Nat) (m : Frame) :
    (fill_body_aesni E i m).state = m.state :=
  forLoop_proj Frame.state _ _ _ (fun _ _ => rfl)

theorem fill_body_aesb_state (E : Ext) (i : Nat) (m : Frame) :
    (fill_body_aesb E i m).state = m.state :=
  forLoop_proj Frame.state _ _ _ (fun _ _ => rfl)

theorem cn_fill_state (E : Ext) (useAes dark : Int) (m : Frame) :
    (cn_fill E useAes dark m).state = m.state := by
  unfold cn_fill
  by_cases h : useAes ≠ 0
  · rw [if_pos h]
    exact forLoop_proj Frame.state _ _ _ (fill_body_aesni_state E)
  · rw [if_neg h]
    exact forLoop_proj Frame.state _ _ _ (fill_body_aesb_state E)

theorem cn_absorb_state (E : Ext) (data : List Nat) (m : Frame) :
    (cn_absorb E data m).state = E.hash_process data := rfl

/-! ## Registers at the start of the mixing loop -/

/-- C10: when the mixing loop starts the Keccak state is still the one `hash_process`
produced (the fill phase does not write it), register `a` holds bytes 0..16 of that state
XOR bytes 32..48, and register `b` holds bytes 16..32 XOR bytes 48..64. -/
theorem mix_start_registers (E : Ext) (useAes dark : Int) (data : List Nat) (m : Frame)
    (hlen : (E.hash_process data).length = 200)
    (hbyte : ∀ v ∈ E.hash_process data, v < 256) :
    (cn_init_ab (cn_fill E useAes dark (cn_absorb E data m))).state = E.hash_process data
      ∧ (cn_init_ab (cn_fill E useAes dark (cn_absorb E data m))).a
          = xorBytes (readBytes (E.hash_process data) 0 16)
              (readBytes (E.hash_process data) 32 16)
      ∧ (cn_init_ab (cn_fill E useAes dark (cn_absorb E data m))).b
          = xorBytes (readBytes (E.hash_process data) 16 16)
              (readBytes (E.hash_process data) 48 16) := by
  have hst : (cn_fill E useAes dark (cn_absorb E data m)).state = E.hash_process data := by
    rw [cn_fill_state, cn_absorb_state]
  have blk : ∀ off, off + 16 ≤ 200 → IsBlock (readBytes (E.hash_process data) off 16) :=
    fun off h => IsBlock_readBytes _ off (by rw [hlen]; exact h) hbyte
  refine ⟨hst, ?_, ?_⟩
  · show store64 _ ++ store64 _ = _
    rw [hst, ← stores_xor_eq_xorBytes _ _ (blk 0 (by omega)) (blk 32 (by omega)),
      U64_readBytes _ _ _ (by omega), U64_readBytes _ _ _ (by omega),
      U64_readBytes _ _ _ (by omega), U64_readBytes _ _ _ (by omega)]
  · show store64 _ ++ store64 _ = _
    rw [hst, ← stores_xor_eq_xorBytes _ _ (blk 16 (by omega)) (blk 48 (by omega)),
      U64_readBytes _ _ _ (by omega), U64_readBytes _ _ _ (by omega),
      U64_readBytes _ _ _ (by omega), U64_readBytes _ _ _ (by omega)]

theorem uninit_length (n : Nat) (junk : List Nat) : (uninit n junk).length = n := by
  simp only [uninit, List.length_append, List.length_take, List.length_replicate]
  omega

theorem toyExt_hash_process_length (d : List Nat) : (toyExt.hash_process d).length = 200 := by
  simp only [toyExt, List.length_map, uninit_length]

theorem toyExt_hash_process_lt (d : List Nat) : ∀ v ∈ toyExt.hash_process d, v < 256 := by
  intro v hv
  simp only [toyExt, List.mem_map] at hv
  obtain ⟨x, _, rfl⟩ := hv
  exact Nat.mod_lt _ (by decide)

/-- Witness for C10: the stand-in collaborators on the empty input. -/
theorem mix_start_registers_witness :
    (toyExt.hash_process []).length = 200
      ∧ (∀ v ∈ toyExt.hash_process [], v < 256)
      ∧ (cn_init_ab (cn_fill toyExt 0 1 (cn_absorb toyExt [] emptyFrame))).state
          = toyExt.hash_process []
      ∧ (cn_init_ab (cn_fill toyExt 0 1 (cn_absorb toyExt [] emptyFrame))).a
          = xorBytes (readBytes (toyExt.hash_process []) 0 16)
              (readBytes (toyExt.hash_process []) 32 16)
      ∧ (cn_init_ab (cn_fill toyExt 0 1 (cn_absorb toyExt [] emptyFrame))).b
          = xorBytes (readBytes (toyExt.hash_process []) 16 16)
              (readBytes (toyExt.hash_process []) 48 16) :=
  ⟨toyExt_hash_process_length [], toyExt_hash_process_lt [],
    mix_start_registers toyExt 0 1 [] emptyFrame (toyExt_hash_process_length [])
      (toyExt_hash_process_lt [])⟩

/-! ## Tiled buffers -/

theorem readBytes_append_right (A Y : List Nat) (off n : Nat) :
    readBytes (A ++ Y) (A.length + off) n = readBytes Y off n := by
  simp only [readBytes, List.drop_append]

theorem readBytes_append_left (X Y : List Nat) (off n : Nat) (h : off + n ≤ X.length) :
    readBytes (X ++ Y) off n = readBytes X off n := by
  simp only [readBytes]
  rw [List.drop_append_of_le_length (by omega),
    List.take_append_of_le_length (by rw [List.length_drop]; omega)]

theorem writeBytes_append (A D src : List Nat) :
    writeBytes (A ++ D) A.length src = A ++ src ++ D.drop src.length := by
  simp only [writeBytes, List.take_left', List.drop_append]

theorem tiles_succ (n : Nat) (c : Nat → List Nat) : tiles (n + 1) c = tiles n c ++ c n := by
  simp only [tiles, List.range_succ, List.flatMap_append, List.flatMap_cons, List.flatMap_nil,
    List.append_nil]

theorem tiles_length (n w : Nat) (c : Nat → List Nat) (hc : ∀ k, (c k).length = w) :
    (tiles n c).length = n * w := by
  induction n with
  | zero => simp [tiles]
  | succ n ih => rw [tiles_succ, List.length_append, ih, hc]; ring

theorem readBytes_tiles (n w : Nat) (c : Nat → List Nat) (hc : ∀ k, (c k).length = w)
    (rest : List Nat) (i off len : Nat) (hi : i < n) (hoff : off + len ≤ w) :
    readBytes (tiles n c ++ rest) (i * w + off) len = readBytes (c i) off len := by
  induction n generalizing rest with
  | zero => omega
  | succ n ih =>
    rw [tiles_succ, List.append_assoc]
    by_cases h : i < n
    · exact ih _ h
    · have e : i = n := by omega
      subst e
      have hl := tiles_length i w c hc
      rw [← hl, readBytes_append_right, readBytes_append_left _ _ _ _ (by rw [hc]; exact hoff)]

/-! ## The lane loops -/

theorem lanes_loop (g : Nat → List Nat → List Nat) (hg : ∀ j x, (g j x).length = 16)
    (t : List Nat) (n : Nat) :
    forLoop n (fun j t => writeBytes t (16 * j) (g j (readBytes t (16 * j) 16))) t
      = tiles n (fun j => g j (readBytes t (16 * j) 16)) ++ t.drop (16 * n) := by
  induction n with
  | zero => simp [forLoop_zero, tiles]
  | succ n ih =>
    have hl : (tiles n (fun j => g j (readBytes t (16 * j) 16))).length = 16 * n := by
      rw [tiles_length n 16 _ (fun k => hg k _), Nat.mul_comm]
    have hr : readBytes (tiles n (fun j => g j (readBytes t (16 * j) 16)) ++ t.drop (16 * n))
        (16 * n) 16 = readBytes t (16 * n) 16 := by
      have := readBytes_append_right (tiles n (fun j => g j (readBytes t (16 * j) 16)))
        (t.drop (16 * n)) 0 16
      rw [hl, Nat.add_zero] at this
      rw [this]
      simp only [readBytes, List.drop_zero]
    rw [forLoop_succ, ih, hr]
    have hw := writeBytes_append (tiles n (fun j => g j (readBytes t (16 * j) 16)))
      (t.drop (16 * n)) (g n (readBytes t (16 * n) 16))
    rw [hl] at hw
    rw [hw, tiles_succ, hg, List.drop_drop]
    have e : 16 * n + 16 = 16 * (n + 1) := by ring
    rw [e]

theorem lanes_loop_text (g : Nat → List Nat → List Nat) (hg : ∀ j x, (g j x).length = 16)
    (t : List Nat) (ht : t.length = 128) :
    forLoop 8 (fun j t => writeBytes t (16 * j) (g j (readBytes t (16 * j) 16))) t
      = map_lanes g t := by
  rw [lanes_loop g hg t 8, List.drop_of_length_le (by omega), List.append_nil, map_lanes]

theorem map_lanes_length (g : Nat → List Nat → List Nat) (hg : ∀ j x, (g j x).length = 16)
    (t : List Nat) : (map_lanes g t).length = 128 := by
  rw [map_lanes, tiles_length 8 16 _ (fun k => hg k _)]

theorem readBytes_map_lanes (g : Nat → List Nat → List Nat) (hg : ∀ j x, (g j x).length = 16)
    (t : List Nat) (j : Nat) (hj : j < 8) :
    readBytes (map_lanes g t) (16 * j) 16 = g j (readBytes t (16 * j) 16) := by
  have h := readBytes_tiles 8 16 (fun j => g j (readBytes t (16 * j) 16)) (fun k => hg k _)
    [] j 0 16 hj (by omega)
  rw [List.append_nil, Nat.add_zero, Nat.mul_comm] at h
  rw [map_lanes, h, readBytes_all _ 16 (hg _ _)]

theorem forLoop_text (F : Nat → Frame → List Nat) (n : Nat) (m : Frame) :
    forLoop n (fun j m => { m with text := F j m }) m
      = { m with text := forLoop n (fun j t => F j { m with text := t }) m.text } := by
  induction n with
  | zero => rfl
  | succ n ih => rw [forLoop_succ, forLoop_succ, ih]

/-! ## The fill phase -/

theorem fill_body_aesni_eq (E : Ext) :
    fill_body_aesni E = fill_gen (aesni_pseudo_round E.mm_aesenc_si128) :=
  rfl

theorem fill_body_aesb_eq (E : Ext) : fill_body_aesb E = fill_gen E.aesb_pseudo_round :=
  rfl

theorem fill_gen_eq (round : List Nat → List Nat → List Nat)
    (hr : ∀ x k, (round x k).length = 16) (i : Nat) (m : Frame) (ht : m.text.length = 128) :
    fill_gen round i m
      = { m with
          text := round_lanes round m.expandedKey m.text
          long_state := writeBytes m.long_state (i * 128)
            (round_lanes round m.expandedKey m.text) } := by
  have hin : forLoop INIT_SIZE_BLK (fun j m =>
      { m with
        text := writeBytes m.text (AES_BLOCK_SIZE * j)
          (round (readBytes m.text (AES_BLOCK_SIZE * j) AES_BLOCK_SIZE) m.expandedKey) }) m
      = { m with text := round_lanes round m.expandedKey m.text } := by
    rw [forLoop_text]
    have := lanes_loop_text (fun _ x => round x m.expandedKey) (fun _ x => hr x _) m.text ht
    simp only [INIT_SIZE_BLK, AES_BLOCK_SIZE, round_lanes]
    rw [this]
  unfold fill_gen
  rw [hin]
  have hl : (round_lanes round m.expandedKey m.text).length = 128 :=
    map_lanes_length _ (fun _ x => hr x _) _
  simp only [memcpy, INIT_SIZE_BYTE_eq, readBytes_all _ 128 hl]

theorem round_lanes_length (round : List Nat → List Nat → List Nat)
    (hr : ∀ x k, (round x k).length = 16) (ek t : List Nat) :
    (round_lanes round ek t).length = 128 :=
  map_lanes_length _ (fun _ x => hr x _) _

theorem round_lanes_iterate_length (round : List Nat → List Nat → List Nat)
    (hr : ∀ x k, (round x k).length = 16) (ek t : List Nat) (ht : t.length = 128) (n : Nat) :
    ((round_lanes round ek)^[n] t).length = 128 := by
  cases n with
  | zero => exact ht
  | succ n => rw [Function.iterate_succ_apply']; exact round_lanes_length round hr _ _

theorem fill_loop_eq (round : List Nat → List Nat → List Nat)
    (hr : ∀ x k, (round x k).length = 16) (n : Nat) (m : Frame) (ht : m.text.length = 128) :
    forLoop n (fill_gen round) m
      = { m with
          text := (round_lanes round m.expandedKey)^[n] m.text
          long_state := tiles n (fun i => (round_lanes round m.expandedKey)^[i + 1] m.text)
            ++ m.long_state.drop (128 * n) } := by
  induction n with
  | zero =>
    cases m
    simp [forLoop_zero, tiles]
  | succ n ih =>
    rw [forLoop_succ, ih, fill_gen_eq round hr n _
      (round_lanes_iterate_length round hr _ _ ht n)]
    have hl : (tiles n (fun i => (round_lanes round m.expandedKey)^[i + 1] m.text)).length
        = n * 128 :=
      tiles_length n 128 _ (fun k => round_lanes_iterate_length round hr _ _ ht (k + 1))
    have hw := writeBytes_append
      (tiles n (fun i => (round_lanes round m.expandedKey)^[i + 1] m.text))
      (m.long_state.drop (128 * n))
      (round_lanes round m.expandedKey ((round_lanes round m.expandedKey)^[n] m.text))
    rw [hl, round_lanes_length round hr, List.drop_drop] at hw
    have e : 128 * n + 128 = 128 * (n + 1) := by ring
    rw [e] at hw
    rw [hw, tiles_succ]
    simp only [Function.iterate_succ_apply']

theorem pseudo_round_length (E : Ext) (useAes : Int)
    (hsw : ∀ x k, (E.aesb_pseudo_round x k).length = 16) (x k : List Nat) :
    (pseudo_round E useAes x k).length = 16 := by
  unfold pseudo_round
  split_ifs
  · exact storeLE_length 16 _
  · exact hsw x k

theorem cn_fill_eq_loop (E : Ext) (useAes dark : Int) (m : Frame) :
    cn_fill E useAes dark m
      = forLoop (scratchpad_size dark / INIT_SIZE_BYTE) (fill_gen (pseudo_round E useAes)) m := by
  unfold cn_fill scratchpad_size
  by_cases h : useAes ≠ 0
  · have e : pseudo_round E useAes = aesni_pseudo_round E.mm_aesenc_si128 := by
      funext x k
      simp only [pseudo_round, if_pos h]
    rw [if_pos h, e, fill_body_aesni_eq]
  · have e : pseudo_round E useAes = E.aesb_pseudo_round := by
      funext x k
      simp only [pseudo_round, if_neg h]
    rw [if_neg h, e, fill_body_aesb_eq]

theorem scratchpad_chunks (dark : Int) :
    128 * (scratchpad_size dark / INIT_SIZE_BYTE) = scratchpad_size dark := by
  unfold scratchpad_size
  split_ifs
  · decide
  · decide

theorem cn_fill_eq (E : Ext) (useAes dark : Int) (m : Frame)
    (hsw : ∀ x k, (E.aesb_pseudo_round x k).length = 16) (ht : m.text.length = 128) :
    cn_fill E useAes dark m
      = { m with
          text := (round_lanes (pseudo_round E useAes) m.expandedKey)^[
            scratchpad_size dark / INIT_SIZE_BYTE] m.text
          long_state :=
            tiles (scratchpad_size dark / INIT_SIZE_BYTE)
                (fun i => (round_lanes (pseudo_round E useAes) m.expandedKey)^[i + 1] m.text)
              ++ m.long_state.drop (scratchpad_size dark) } := by
  rw [cn_fill_eq_loop, fill_loop_eq _ (pseudo_round_length E useAes hsw) _ _ ht,
    scratchpad_chunks]

theorem readBytes_readBytes (m : List Nat) (off n off1 n1 : Nat) (h : off1 + n1 ≤ n) :
    readBytes (readBytes m off n) off1 n1 = readBytes m (off + off1) n1 := by
  have e : n1 ⊓ (n - off1) = n1 := by omega
  simp only [readBytes, List.drop_take, List.take_take, List.drop_drop, e]

theorem readBytes_length (m : List Nat) (off n : Nat) (h : off + n ≤ m.length) :
    (readBytes m off n).length = n := by
  simp only [readBytes, List.length_take, List.length_drop]
  omega

theorem tiles_congr (n : Nat) (c c1 : Nat → List Nat) (h : ∀ j, j < n → c j = c1 j) :
    tiles n c = tiles n c1 := by
  induction n with
  | zero => rfl
  | succ n ih =>
    rw [tiles_succ, tiles_succ, ih (fun j hj => h j (by omega)), h n (by omega)]

theorem lane_iterate (round : List Nat → List Nat → List Nat)
    (hr : ∀ x k, (round x k).length = 16) (ek t : List Nat) (j : Nat) (hj : j < 8) (k : Nat) :
    readBytes ((round_lanes round ek)^[k] t) (16 * j) 16
      = (fun x => round x ek)^[k] (readBytes t (16 * j) 16) := by
  induction k with
  | zero => rfl
  | succ k ih =>
    rw [Function.iterate_succ_apply', Function.iterate_succ_apply']
    have h := readBytes_map_lanes (fun _ x => round x ek) (fun _ x => hr x _)
      ((round_lanes round ek)^[k] t) j hj
    rw [ih] at h
    exact h

theorem round_lanes_iterate_succ (round : List Nat → List Nat → List Nat)
    (hr : ∀ x k, (round x k).length = 16) (ek t : List Nat) (k : Nat) :
    (round_lanes round ek)^[k + 1] t
      = tiles 8 (fun j => (fun x => round x ek)^[k + 1] (readBytes t (16 * j) 16)) := by
  rw [Function.iterate_succ_apply']
  change tiles 8 (fun j => round (readBytes ((round_lanes round ek)^[k] t) (16 * j) 16) ek) = _
  apply tiles_congr
  intro j hj
  show round (readBytes ((round_lanes round ek)^[k] t) (16 * j) 16) ek = _
  rw [lane_iterate round hr ek t j hj k, Function.iterate_succ_apply']

theorem scratchpad_size_eq (dark : Int) :
    scratchpad_size dark = if dark = 0 then 2097152 else 524288 := by
  unfold scratchpad_size
  by_cases h : dark = 0
  · simp only [h, ne_eq, not_true_eq_false, if_false, if_true, MEMORY_eq]
  · simp only [h, ne_eq, not_false_eq_true, if_false, if_true, MEMORY_DARK_eq]

theorem cn_fill_long_state (E : Ext) (useAes dark : Int) (data : List Nat) (m : Frame)
    (hst : (E.hash_process data).length = 200)
    (hsw : ∀ x k, (E.aesb_pseudo_round x k).length = 16) :
    (cn_fill E useAes dark (cn_absorb E data m)).long_state
      = filled (pseudo_round E useAes)
            (expand_key E (readBytes (E.hash_process data) 0 32) m.expandedKey)
            (readBytes (E.hash_process data) 64 128) (scratchpad_size dark / 128)
          ++ m.long_state.drop (scratchpad_size dark) := by
  have ht : (cn_absorb E data m).text.length = 128 :=
    readBytes_length (E.hash_process data) 64 128 (by omega)
  rw [cn_fill_eq E useAes dark _ hsw ht]
  show tiles _ _ ++ _ = _
  congr 1
  unfold filled
  rw [INIT_SIZE_BYTE_eq]
  apply tiles_congr
  intro i _
  exact round_lanes_iterate_succ _ (pseudo_round_length E useAes hsw) _ _ i

theorem filled_length (round : List Nat → List Nat → List Nat)
    (hr : ∀ x k, (round x k).length = 16) (ek text : List Nat) (n : Nat) :
    (filled round ek text n).length = n * 128 := by
  refine tiles_length n 128 _ (fun i => ?_)
  refine tiles_length 8 16 _ (fun j => ?_)
  rw [Function.iterate_succ_apply']
  exact hr _ _

theorem readBytes_filled (round : List Nat → List Nat → List Nat)
    (hr : ∀ x k, (round x k).length = 16) (ek text rest : List Nat) (n i j : Nat)
    (hi : i < n) (hj : j < 8) :
    readBytes (filled round ek text n ++ rest) (i * 128 + j * 16) 16
      = (fun x => round x ek)^[i + 1] (readBytes text (16 * j) 16) := by
  have hlane : ∀ i j, ((fun x => round x ek)^[i + 1] (readBytes text (16 * j) 16)).length
      = 16 := by
    intro i j
    rw [Function.iterate_succ_apply']
    exact hr _ _
  unfold filled
  rw [readBytes_tiles n 128 _ (fun i => tiles_length 8 16 _ (fun j => hlane i j)) rest i
    (j * 16) 16 hi (by omega)]
  have h := readBytes_tiles 8 16
    (fun j => (fun x => round x ek)^[i + 1] (readBytes text (16 * j) 16)) (hlane i) [] j 0 16 hj
    (by omega)
  simp only [List.append_nil, Nat.add_zero] at h
  rw [h, readBytes_all _ 16 (hlane i j)]

/-- C2: after the fill phase, for every chunk `i < N / 128` and every lane `j < 8` the 16
scratchpad bytes at offset `i * 128 + j * 16` are the pseudo-round applied `i + 1` times to
bytes `64 + 16 j .. 64 + 16 j + 16` of the absorbed Keccak state, under the expanded key
built from state bytes 0..32; the first `N` bytes of the scratchpad are exactly these
blocks (so every byte in `[0, N)` is written), what lies beyond `N` is untouched and the
buffer keeps its length.  `N` is 2097152 for `dark = 0` and 524288 otherwise. -/
theorem fill_scratchpad_contents (E : Ext) (useAes dark : Int) (data : List Nat) (m : Frame)
    (i j : Nat) (hst : (E.hash_process data).length = 200)
    (hsw : ∀ x k, (E.aesb_pseudo_round x k).length = 16)
    (hls : scratchpad_size dark ≤ m.long_state.length)
    (hi : i < scratchpad_size dark / 128) (hj : j < 8) :
    readBytes (cn_fill E useAes dark (cn_absorb E data m)).long_state (i * 128 + j * 16) 16
        = (fun x => pseudo_round E useAes x
              (expand_key E (readBytes (E.hash_process data) 0 32) m.expandedKey))^[i + 1]
            (readBytes (E.hash_process data) (64 + 16 * j) 16)
      ∧ (cn_fill E useAes dark (cn_absorb E data m)).long_state
          = filled (pseudo_round E useAes)
                (expand_key E (readBytes (E.hash_process data) 0 32) m.expandedKey)
                (readBytes (E.hash_process data) 64 128) (scratchpad_size dark / 128)
              ++ m.long_state.drop (scratchpad_size dark)
      ∧ (cn_fill E useAes dark (cn_absorb E data m)).long_state.length = m.long_state.length
      ∧ scratchpad_size dark = (if dark = 0 then 2097152 else 524288) := by
  have hL := cn_fill_long_state E useAes dark data m hst hsw
  have hr := pseudo_round_length E useAes hsw
  refine ⟨?_, hL, ?_, scratchpad_size_eq dark⟩
  · rw [hL, readBytes_filled _ hr _ _ _ _ i j hi hj,
      readBytes_readBytes _ 64 128 (16 * j) 16 (by omega)]
  · have hc := scratchpad_chunks dark
    rw [INIT_SIZE_BYTE_eq] at hc
    rw [hL, List.length_append, filled_length _ hr, List.length_drop]
    omega

theorem toyExt_aesb_pseudo_round_length (x k : List Nat) :
    (toyExt.aesb_pseudo_round x k).length = 16 :=
  storeLE_length 16 _

theorem lightFrame_long_state_length : lightFrame.long_state.length = 524288 := by
  rw [show lightFrame.long_state = uninit MEMORY_DARK [1, 2, 3] from rfl, uninit_length,
    MEMORY_DARK_eq]

theorem scratchpad_size_one : scratchpad_size 1 = 524288 := by decide

/-- Witness for C2: the stand-in collaborators on the empty input, light mode, software
path, chunk 0, lane 0. -/
theorem fill_scratchpad_contents_witness :
    (toyExt.hash_process []).length = 200
      ∧ scratchpad_size 1 ≤ lightFrame.long_state.length
      ∧ 0 < scratchpad_size 1 / 128
      ∧ readBytes (cn_fill toyExt 0 1 (cn_absorb toyExt [] lightFrame)).long_state
            (0 * 128 + 0 * 16) 16
          = (fun x => pseudo_round toyExt 0 x
                (expand_key toyExt (readBytes (toyExt.hash_process []) 0 32)
                  lightFrame.expandedKey))^[0 + 1]
              (readBytes (toyExt.hash_process []) (64 + 16 * 0) 16)
      ∧ (cn_fill toyExt 0 1 (cn_absorb toyExt [] lightFrame)).long_state
          = filled (pseudo_round toyExt 0)
                (expand_key toyExt (readBytes (toyExt.hash_process []) 0 32)
                  lightFrame.expandedKey)
                (readBytes (toyExt.hash_process []) 64 128) (scratchpad_size 1 / 128)
              ++ lightFrame.long_state.drop (scratchpad_size 1)
      ∧ (cn_fill toyExt 0 1 (cn_absorb toyExt [] lightFrame)).long_state.length
          = lightFrame.long_state.length
      ∧ scratchpad_size 1 = (if (1 : Int) = 0 then 2097152 else 524288) :=
  ⟨toyExt_hash_process_length [],
    by rw [lightFrame_long_state_length, scratchpad_size_one],
    by rw [scratchpad_size_one]; decide,
    fill_scratchpad_contents toyExt 0 1 [] lightFrame 0 0 (toyExt_hash_process_length [])
      toyExt_aesb_pseudo_round_length
      (by rw [lightFrame_long_state_length, scratchpad_size_one])
      (by rw [scratchpad_size_one]; decide) (by decide)⟩

/-! ## Independence of the initial scratchpad -/

theorem cn_fill_absorb_of_length (E : Ext) (useAes dark : Int) (data : List Nat) (m : Frame)
    (ls : List Nat) (hst : (E.hash_process data).length = 200)
    (hsw : ∀ x k, (E.aesb_pseudo_round x k).length = 16)
    (hls : ls.length = scratchpad_size dark) :
    cn_fill E useAes dark (cn_absorb E data { m with long_state := ls })
      = { cn_absorb E data m with
          text := (round_lanes (pseudo_round E useAes) (cn_absorb E data m).expandedKey)^[
            scratchpad_size dark / INIT_SIZE_BYTE] (cn_absorb E data m).text
          long_state :=
            tiles (scratchpad_size dark / INIT_SIZE_BYTE)
              (fun i => (round_lanes (pseudo_round E useAes)
                (cn_absorb E data m).expandedKey)^[i + 1] (cn_absorb E data m).text) } := by
  have ht : (cn_absorb E data { m with long_state := ls }).text.length = 128 :=
    readBytes_length (E.hash_process data) 64 128 (by omega)
  rw [cn_fill_eq E useAes dark _ hsw ht]
  have hd : List.drop (scratchpad_size dark)
      (cn_absorb E data { m with long_state := ls }).long_state = [] :=
    List.drop_of_length_le (by show ls.length ≤ _; omega)
  rw [hd, List.append_nil]
  rfl

theorem cn_slow_hash_internal_of_length (E : Ext) (cpu : Cpu) (data : List Nat)
    (dark : Int) (m : Frame) (ls1 ls2 : List Nat) (hst : (E.hash_process data).length = 200)
    (hsw : ∀ x k, (E.aesb_pseudo_round x k).length = 16)
    (h1 : ls1.length = scratchpad_size dark) (h2 : ls2.length = scratchpad_size dark) :
    cn_slow_hash_internal E cpu data dark { m with long_state := ls1 }
      = cn_slow_hash_internal E cpu data dark { m with long_state := ls2 } := by
  unfold cn_slow_hash_internal
  simp only [cn_fill_absorb_of_length E _ dark data m ls1 hst hsw h1,
    cn_fill_absorb_of_length E _ dark data m ls2 hst hsw h2]

/-- C6: for every input and mode, two runs of `cn_slow_hash_internal` that differ only in
the initial contents of the scratchpad `long_state` (an array of the size of the mode) are
in the same state after the fill phase, scratchpad included, and produce the same digest:
nothing of the initial contents is read.  So the digest of `cn_slow_hash`, whose callees
leave the array uninitialised, does not depend on what the array held. -/
theorem digest_independent_of_scratchpad (E : Ext) (cpu : Cpu) (data : List Nat) (dark : Int)
    (m : Frame) (ls1 ls2 : List Nat) (hst : (E.hash_process data).length = 200)
    (hsw : ∀ x k, (E.aesb_pseudo_round x k).length = 16)
    (h1 : ls1.length = scratchpad_size dark) (h2 : ls2.length = scratchpad_size dark) :
    cn_fill E (check_aes_hw cpu) dark (cn_absorb E data { m with long_state := ls1 })
        = cn_fill E (check_aes_hw cpu) dark (cn_absorb E data { m with long_state := ls2 })
      ∧ (cn_slow_hash_internal E cpu data dark { m with long_state := ls1 }).hash
        = (cn_slow_hash_internal E cpu data dark { m with long_state := ls2 }).hash
      ∧ (cn_slow_hash E cpu data dark { m with long_state := ls1 }).hash
        = (cn_slow_hash E cpu data dark { m with long_state := ls2 }).hash := by
  refine ⟨?_, ?_, ?_⟩
  · rw [cn_fill_absorb_of_length E _ dark data m ls1 hst hsw h1,
      cn_fill_absorb_of_length E _ dark data m ls2 hst hsw h2]
  · rw [cn_slow_hash_internal_of_length E cpu data dark m ls1 ls2 hst hsw h1 h2]
  · unfold cn_slow_hash cn_slow_hash_internal_512kb cn_slow_hash_internal_2048kb
    by_cases hd : dark = 1
    · rw [if_pos hd, if_pos hd]
      exact congrArg Frame.hash (cn_slow_hash_internal_of_length E cpu data 1 m
        (uninit MEMORY_DARK ls1) (uninit MEMORY_DARK ls2) hst hsw
        (by rw [uninit_length]; rfl) (by rw [uninit_length]; rfl))
    · rw [if_neg hd, if_neg hd]
      exact congrArg Frame.hash (cn_slow_hash_internal_of_length E cpu data 0 m
        (uninit MEMORY ls1) (uninit MEMORY ls2) hst hsw
        (by rw [uninit_length]; rfl) (by rw [uninit_length]; rfl))

/-- Witness for C6: the stand-in collaborators, light mode, a scratchpad of zeros against
a scratchpad of ones. -/
theorem digest_independent_of_scratchpad_witness :
    (toyExt.hash_process []).length = 200
      ∧ (List.replicate 524288 0).length = scratchpad_size 1
      ∧ (List.replicate 524288 1).length = scratchpad_size 1
      ∧ cn_fill toyExt (check_aes_hw cpuPlain) 1
            (cn_absorb toyExt [] { emptyFrame with long_state := List.replicate 524288 0 })
          = cn_fill toyExt (check_aes_hw cpuPlain) 1
            (cn_absorb toyExt [] { emptyFrame with long_state := List.replicate 524288 1 })
      ∧ (cn_slow_hash_internal toyExt cpuPlain [] 1
            { emptyFrame with long_state := List.replicate 524288 0 }).hash
          = (cn_slow_hash_internal toyExt cpuPlain [] 1
            { emptyFrame with long_state := List.replicate 524288 1 }).hash
      ∧ (cn_slow_hash toyExt cpuPlain [] 1
            { emptyFrame with long_state := List.replicate 524288 0 }).hash
          = (cn_slow_hash toyExt cpuPlain [] 1
            { emptyFrame with long_state := List.replicate 524288 1 }).hash :=
  ⟨toyExt_hash_process_length [],
    by rw [List.length_replicate, scratchpad_size_one],
    by rw [List.length_replicate, scratchpad_size_one],
    digest_independent_of_scratchpad toyExt cpuPlain [] 1 emptyFrame
      (List.replicate 524288 0) (List.replicate 524288 1) (toyExt_hash_process_length [])
      toyExt_aesb_pseudo_round_length
      (by rw [List.length_replicate, scratchpad_size_one])
      (by rw [List.length_replicate, scratchpad_size_one])⟩

/-! ## The finaliser and the entry point -/

theorem extra_hashes_get (E : Ext) (k : Nat) (h : k < (extra_hashes E).length) :
    (extra_hashes E).get ⟨k, h⟩
      = if k = 0 then E.hash_extra_blake
        else if k = 1 then E.hash_extra_groestl
        else if k = 2 then E.hash_extra_jh
        else E.hash_extra_skein := by
  have h4 : k < 4 := h
  interval_cases k <;> rfl

theorem cn_slow_hash_internal_eq (E : Ext) (cpu : Cpu) (data : List Nat) (dark : Int)
    (m : Frame) :
    cn_slow_hash_internal E cpu data dark m
      = cn_finish E dark (cn_store_text (cn_reabsorb E (check_aes_hw cpu) dark
          (cn_mix E (check_aes_hw cpu) dark (cn_init_ab
            (cn_fill E (check_aes_hw cpu) dark (cn_absorb E data m)))))) :=
  rfl

/-- C4: the digest is one finaliser applied to the 200 bytes of the permuted Keccak state
(the state `hash_permutation` returned, which is the state at return).  In light mode
(`dark` non-zero) the finaliser is BLAKE-256 whatever the state holds; in full mode it is
chosen by the first byte of the permuted state AND 3: 0 BLAKE-256, 1 Groestl-256,
2 JH-256, 3 Skein-256. -/
theorem digest_finaliser (E : Ext) (cpu : Cpu) (data : List Nat) (dark : Int) (m : Frame) :
    (cn_slow_hash_internal E cpu data dark m).state
        = E.hash_permutation (cn_store_text (cn_reabsorb E (check_aes_hw cpu) dark
            (cn_mix E (check_aes_hw cpu) dark (cn_init_ab
              (cn_fill E (check_aes_hw cpu) dark (cn_absorb E data m)))))).state
      ∧ (cn_slow_hash_internal E cpu data dark m).hash
        = (if dark ≠ 0 then E.hash_extra_blake
            else if (cn_slow_hash_internal E cpu data dark m).state.getD 0 0 &&& 3 = 0 then
              E.hash_extra_blake
            else if (cn_slow_hash_internal E cpu data dark m).state.getD 0 0 &&& 3 = 1 then
              E.hash_extra_groestl
            else if (cn_slow_hash_internal E cpu data dark m).state.getD 0 0 &&& 3 = 2 then
              E.hash_extra_jh
            else E.hash_extra_skein)
          (readBytes (cn_slow_hash_internal E cpu data dark m).state 0 200)
      ∧ (cn_slow_hash_internal E cpu data dark m).state.getD 0 0 &&& 3 ≤ 3 := by
  rw [cn_slow_hash_internal_eq]
  generalize cn_store_text (cn_reabsorb E (check_aes_hw cpu) dark
    (cn_mix E (check_aes_hw cpu) dark (cn_init_ab
      (cn_fill E (check_aes_hw cpu) dark (cn_absorb E data m))))) = f
  refine ⟨?_, ?_, Nat.and_le_right⟩
  · by_cases hd : dark ≠ 0
    · simp only [cn_finish, if_pos hd]
    · simp only [cn_finish, if_neg hd]
  · by_cases hd : dark ≠ 0
    · simp only [cn_finish, if_pos hd]
    · simp only [cn_finish, if_neg hd, extra_hashes_get]

/-- C7: `cn_slow_hash` runs the light parameterisation (a 524288-byte scratchpad and
`dark = 1`) exactly when `dark == 1`, and the full one (a 2097152-byte scratchpad and
`dark = 0`) for every other value of `dark`; its result is that of
`cn_slow_hash_internal` with those parameters. -/
theorem cn_slow_hash_dispatch (E : Ext) (cpu : Cpu) (data : List Nat) (dark : Int)
    (m : Frame) :
    cn_slow_hash E cpu data dark m
        = (if dark = 1 then
            cn_slow_hash_internal E cpu data 1
              { m with long_state := uninit 524288 m.long_state }
          else
            cn_slow_hash_internal E cpu data 0
              { m with long_state := uninit 2097152 m.long_state })
      ∧ (uninit 524288 m.long_state).length = 524288
      ∧ (uninit 2097152 m.long_state).length = 2097152 := by
  refine ⟨?_, uninit_length _ _, uninit_length _ _⟩
  unfold cn_slow_hash cn_slow_hash_internal_512kb cn_slow_hash_internal_2048kb
  rw [MEMORY_eq, MEMORY_DARK_eq]

/-! ## Hardware path against software path -/

theorem aesni_pseudo_round_eq_spec (aesenc : Nat → Nat → Nat) (inp ek : List Nat) :
    aesni_pseudo_round aesenc inp ek = spec_pseudo_round aesenc inp ek := by
  simp [aesni_pseudo_round, spec_pseudo_round, List.range_succ]

theorem reabsorb_body_aesb_eq (E : Ext)
    (h10 : ∀ inp ek, E.aesb_pseudo_round inp ek
      = aesni_pseudo_round E.mm_aesenc_si128 inp ek) :
    reabsorb_body_aesb E = reabsorb_body_aesni E := by
  funext i m
  simp only [reabsorb_body_aesb, reabsorb_body_aesni, h10, Nat.mul_comm AES_BLOCK_SIZE]

theorem mix_iteration1_eq (E : Ext) (u1 u2 : Int) (hu1 : u1 ≠ 0) (hu2 : u2 = 0)
    (h1 : ∀ inp key, E.aesb_single_round inp key
      = spec_single_round E.mm_aesenc_si128 inp key) (dark : Int) (m : Frame) :
    mix_iteration1 E u1 dark m = mix_iteration1 E u2 dark m := by
  subst hu2
  simp only [mix_iteration1, if_pos hu1, ne_eq, not_true_eq_false, if_false, h1,
    spec_single_round]

/-- C5: if `aesb_single_round` computes one `aesenc` round and `aesb_pseudo_round`
computes ten chained `aesenc` rounds over the round keys 0..9, then for every input and
mode `cn_slow_hash_internal` leaves the same buffers, digest included, on the hardware
path (`useAes` non-zero) as on the software path (`useAes` zero). -/
theorem aes_paths_agree (E : Ext) (cpu1 cpu2 : Cpu) (data : List Nat) (dark : Int)
    (m : Frame)
    (h1 : ∀ inp key, E.aesb_single_round inp key
      = spec_single_round E.mm_aesenc_si128 inp key)
    (h10 : ∀ inp ek, E.aesb_pseudo_round inp ek
      = spec_pseudo_round E.mm_aesenc_si128 inp ek)
    (hw : check_aes_hw cpu1 ≠ 0) (sw : check_aes_hw cpu2 = 0) :
    cn_slow_hash_internal E cpu1 data dark m = cn_slow_hash_internal E cpu2 data dark m := by
  have h10a : ∀ inp ek, E.aesb_pseudo_round inp ek
      = aesni_pseudo_round E.mm_aesenc_si128 inp ek := by
    intro inp ek
    rw [h10, aesni_pseudo_round_eq_spec]
  have hfill : fill_body_aesb E = fill_body_aesni E := by
    funext i m
    simp only [fill_body_aesb, fill_body_aesni, h10a]
  have hre := reabsorb_body_aesb_eq E h10a
  have hmix : ∀ f, mix_iteration1 E (check_aes_hw cpu1) dark f
      = mix_iteration1 E (check_aes_hw cpu2) dark f :=
    fun f => mix_iteration1_eq E _ _ hw sw h1 dark f
  simp only [cn_slow_hash_internal, cn_fill, cn_mix, cn_reabsorb, if_pos hw, sw, ne_eq,
    not_true_eq_false, if_false, hfill, hre, hmix]

/-- Witness for C5: the stand-in collaborators, whose software AES is defined from the
stand-in `aesenc`, on a machine with AES-NI and on one without. -/
theorem aes_paths_agree_witness :
    check_aes_hw cpuAesni ≠ 0 ∧ check_aes_hw cpuPlain = 0
      ∧ cn_slow_hash_internal toyExt cpuAesni [1, 2, 3] 0 emptyFrame
          = cn_slow_hash_internal toyExt cpuPlain [1, 2, 3] 0 emptyFrame :=
  ⟨by decide, by decide,
    aes_paths_agree toyExt cpuAesni cpuPlain [1, 2, 3] 0 emptyFrame (fun _ _ => rfl)
      (fun inp ek => aesni_pseudo_round_eq_spec toyExt.mm_aesenc_si128 inp ek)
      (by decide) (by decide)⟩

/-! ## Writes followed by reads -/

theorem writeBytes_length (m : List Nat) (off : Nat) (src : List Nat)
    (h : off + src.length ≤ m.length) : (writeBytes m off src).length = m.length := by
  simp only [writeBytes, List.length_append, List.length_take, List.length_drop]
  omega

theorem writeBytes_eq_append (m : List Nat) (off : Nat) (src : List Nat)
    (h : off ≤ m.length) :
    writeBytes m off src = m.take off ++ (src ++ m.drop (off + src.length))
      ∧ (m.take off).length = off := by
  refine ⟨by simp only [writeBytes, List.append_assoc], ?_⟩
  rw [List.length_take]
  omega

theorem readBytes_writeBytes_same (m : List Nat) (off : Nat) (src : List Nat)
    (h : off ≤ m.length) : readBytes (writeBytes m off src) off src.length = src := by
  obtain ⟨e, hl⟩ := writeBytes_eq_append m off src h
  have h2 := readBytes_append_right (m.take off) (src ++ m.drop (off + src.length)) 0
    src.length
  rw [hl, Nat.add_zero] at h2
  rw [e, h2]
  simp only [readBytes, List.drop_zero, List.take_left']

theorem writeBytes_writeBytes_same (m : List Nat) (off : Nat) (src src1 : List Nat)
    (h : off ≤ m.length) (hs : src1.length = src.length) :
    writeBytes (writeBytes m off src) off src1 = writeBytes m off src1 := by
  obtain ⟨e, hl⟩ := writeBytes_eq_append m off src h
  have h2 := writeBytes_append (m.take off) (src ++ m.drop (off + src.length)) src1
  rw [hl] at h2
  rw [e, h2, hs, List.drop_left']
  · simp only [writeBytes, List.append_assoc, hs]
  · rfl

theorem forLoop_congr_inv {σ : Type} (P : σ → Prop) (n : Nat) (body body1 : Nat → σ → σ)
    (s : σ) (h0 : P s) (hstep : ∀ i, i < n → ∀ s, P s → P (body1 i s))
    (heq : ∀ i, i < n → ∀ s, P s → body i s = body1 i s) :
    forLoop n body s = forLoop n body1 s ∧ P (forLoop n body1 s) := by
  induction n with
  | zero => exact ⟨rfl, h0⟩
  | succ n ih =>
    obtain ⟨e, hp⟩ := ih (fun i hi => hstep i (by omega)) (fun i hi => heq i (by omega))
    rw [forLoop_succ, forLoop_succ, e, heq n (by omega) _ hp]
    exact ⟨rfl, hstep n (by omega) _ hp⟩

theorem xor_blocks_length (x y : List Nat) : (xor_blocks x y).1.length = 16 :=
  (IsBlock_stores _ _).1

/-! ## The re-absorb phase -/

theorem reabsorb_lanes_loop (round : List Nat → List Nat → List Nat)
    (hr : ∀ x k, (round x k).length = 16) (ek sp : List Nat) (i : Nat) (t : List Nat)
    (ht : t.length = 128) :
    forLoop 8 (fun j t =>
        writeBytes (writeBytes t (j * 16)
            (xor_blocks (readBytes t (j * 16) 16) (readBytes sp (i * 128 + j * 16) 16)).1)
          (j * 16)
          (round (readBytes (writeBytes t (j * 16)
            (xor_blocks (readBytes t (j * 16) 16) (readBytes sp (i * 128 + j * 16) 16)).1)
            (j * 16) 16) ek)) t
      = map_lanes
          (fun j x => round (xor_blocks x (readBytes sp (i * 128 + j * 16) 16)).1 ek) t := by
  have hstep : ∀ j, j < 8 → ∀ t : List Nat, t.length = 128 →
      (writeBytes t (16 * j)
        (round (xor_blocks (readBytes t (16 * j) 16)
          (readBytes sp (i * 128 + j * 16) 16)).1 ek)).length = 128 := by
    intro j hj t ht
    rw [writeBytes_length _ _ _ (by rw [hr, ht]; omega)]
    exact ht
  have heq : ∀ j, j < 8 → ∀ t : List Nat, t.length = 128 →
      writeBytes (writeBytes t (j * 16)
            (xor_blocks (readBytes t (j * 16) 16) (readBytes sp (i * 128 + j * 16) 16)).1)
          (j * 16)
          (round (readBytes (writeBytes t (j * 16)
            (xor_blocks (readBytes t (j * 16) 16) (readBytes sp (i * 128 + j * 16) 16)).1)
            (j * 16) 16) ek)
        = writeBytes t (16 * j)
            (round (xor_blocks (readBytes t (16 * j) 16)
              (readBytes sp (i * 128 + j * 16) 16)).1 ek) := by
    intro j hj t ht
    have hx := xor_blocks_length (readBytes t (j * 16) 16)
      (readBytes sp (i * 128 + j * 16) 16)
    have h1 := readBytes_writeBytes_same t (j * 16)
      (xor_blocks (readBytes t (j * 16) 16) (readBytes sp (i * 128 + j * 16) 16)).1
      (by omega)
    rw [hx] at h1
    rw [h1, writeBytes_writeBytes_same _ _ _ _ (by omega) (by rw [hr, hx]),
      Nat.mul_comm j 16]
  have h := forLoop_congr_inv (fun t : List Nat => t.length = 128) 8
    (fun j t =>
        writeBytes (writeBytes t (j * 16)
            (xor_blocks (readBytes t (j * 16) 16) (readBytes sp (i * 128 + j * 16) 16)).1)
          (j * 16)
          (round (readBytes (writeBytes t (j * 16)
            (xor_blocks (readBytes t (j * 16) 16) (readBytes sp (i * 128 + j * 16) 16)).1)
            (j * 16) 16) ek))
    (fun j t => writeBytes t (16 * j)
      (round (xor_blocks (readBytes t (16 * j) 16)
        (readBytes sp (i * 128 + j * 16) 16)).1 ek))
    t ht hstep heq
  rw [h.1]
  exact lanes_loop_text
    (fun j x => round (xor_blocks x (readBytes sp (i * 128 + j * 16) 16)).1 ek)
    (fun _ x => hr _ _) t ht

theorem reabsorb_gen_eq (round : List Nat → List Nat → List Nat)
    (hr : ∀ x k, (round x k).length = 16) (i : Nat) (m : Frame) (ht : m.text.length = 128) :
    reabsorb_gen round i m
      = { m with
          text := map_lanes (fun j x =>
            round (xor_blocks x (readBytes m.long_state (i * 128 + j * 16) 16)).1
              m.expandedKey) m.text } := by
  have h := forLoop_text (fun j m =>
    writeBytes (writeBytes m.text (j * 16)
        (xor_blocks (readBytes m.text (j * 16) 16)
          (readBytes m.long_state (i * 128 + j * 16) 16)).1)
      (j * 16)
      (round (readBytes (writeBytes m.text (j * 16)
        (xor_blocks (readBytes m.text (j * 16) 16)
          (readBytes m.long_state (i * 128 + j * 16) 16)).1)
        (j * 16) 16) m.expandedKey)) 8 m
  have h2 := reabsorb_lanes_loop round hr m.expandedKey m.long_state i m.text ht
  rw [← h2]
  exact h

theorem reabsorb_loop_eq (round : List Nat → List Nat → List Nat)
    (hr : ∀ x k, (round x k).length = 16) (n : Nat) (m : Frame) (ht : m.text.length = 128) :
    forLoop n (reabsorb_gen round) m
        = { m with
            text := forLoop n (fun i t => map_lanes (fun j x =>
              round (xor_blocks x (readBytes m.long_state (i * 128 + j * 16) 16)).1
                m.expandedKey) t) m.text }
      ∧ (forLoop n (fun i t => map_lanes (fun j x =>
              round (xor_blocks x (readBytes m.long_state (i * 128 + j * 16) 16)).1
                m.expandedKey) t) m.text).length = 128 := by
  induction n with
  | zero => exact ⟨rfl, ht⟩
  | succ n ih =>
    obtain ⟨e, hl⟩ := ih
    refine ⟨?_, ?_⟩
    · rw [forLoop_succ, e, reabsorb_gen_eq round hr n _ hl, forLoop_succ]
    · rw [forLoop_succ]
      exact map_lanes_length _ (fun _ _ => hr _ _) _

theorem reabsorb_loop_lane (round : List Nat → List Nat → List Nat)
    (hr : ∀ x k, (round x k).length = 16) (ek sp t : List Nat) (j : Nat) (hj : j < 8)
    (n : Nat) :
    readBytes (forLoop n (fun i t => map_lanes (fun j x =>
        round (xor_blocks x (readBytes sp (i * 128 + j * 16) 16)).1 ek) t) t) (16 * j) 16
      = reabsorb_lane round ek sp j (readBytes t (16 * j) 16) n := by
  induction n with
  | zero => rfl
  | succ n ih =>
    rw [forLoop_succ, readBytes_map_lanes _ (fun _ _ => hr _ _) _ j hj, ih]
    simp only [reabsorb_lane, List.range_succ, List.foldl_append, List.foldl_cons,
      List.foldl_nil]

theorem reabsorb_body_aesni_gen (E : Ext) :
    reabsorb_body_aesni E = reabsorb_gen (aesni_pseudo_round E.mm_aesenc_si128) :=
  rfl

theorem reabsorb_body_aesb_gen (E : Ext) :
    reabsorb_body_aesb E = reabsorb_gen E.aesb_pseudo_round := by
  funext i m
  simp only [reabsorb_body_aesb, reabsorb_gen, Nat.mul_comm AES_BLOCK_SIZE]

theorem cn_reabsorb_eq_loop (E : Ext) (useAes dark : Int) (m : Frame) :
    cn_reabsorb E useAes dark m
      = forLoop (scratchpad_size dark / INIT_SIZE_BYTE) (reabsorb_gen (pseudo_round E useAes))
          { m with
            text := readBytes m.state 64 INIT_SIZE_BYTE
            expandedKey := expand_key E (readBytes m.state 32 AES_KEY_SIZE) m.expandedKey } := by
  unfold cn_reabsorb scratchpad_size
  by_cases h : useAes ≠ 0
  · have e : pseudo_round E useAes = aesni_pseudo_round E.mm_aesenc_si128 := by
      funext x k
      simp only [pseudo_round, if_pos h]
    simp only [if_pos h, e, reabsorb_body_aesni_gen, expand_key]
  · have e : pseudo_round E useAes = E.aesb_pseudo_round := by
      funext x k
      simp only [pseudo_round, if_neg h]
    simp only [if_neg h, e, reabsorb_body_aesb_gen, expand_key]

theorem cn_reabsorb_eq (E : Ext) (useAes dark : Int) (m : Frame)
    (hst : m.state.length = 200) (hsw : ∀ x k, (E.aesb_pseudo_round x k).length = 16) :
    cn_reabsorb E useAes dark m
      = { m with
          text := forLoop (scratchpad_size dark / 128) (fun i t => map_lanes (fun j x =>
            pseudo_round E useAes
              (xor_blocks x (readBytes m.long_state (i * 128 + j * 16) 16)).1
              (expand_key E (readBytes m.state 32 32) m.expandedKey)) t)
            (readBytes m.state 64 128)
          expandedKey := expand_key E (readBytes m.state 32 32) m.expandedKey } := by
  rw [cn_reabsorb_eq_loop]
  have ht : (readBytes m.state 64 128).length = 128 := readBytes_length _ 64 128 (by omega)
  have h := (reabsorb_loop_eq (pseudo_round E useAes) (pseudo_round_length E useAes hsw)
    (scratchpad_size dark / 128)
    { m with
      text := readBytes m.state 64 128
      expandedKey := expand_key E (readBytes m.state 32 32) m.expandedKey } ht).1
  rw [INIT_SIZE_BYTE_eq, show AES_KEY_SIZE = 32 from rfl, h]

theorem mix_iteration1_state (E : Ext) (useAes dark : Int) (m : Frame) :
    (mix_iteration1 E useAes dark m).state = m.state := by
  by_cases h : useAes ≠ 0
  · simp only [mix_iteration1, if_pos h]
  · simp only [mix_iteration1, if_neg h]

theorem mix_iteration2_state (dark : Int) (m : Frame) :
    (mix_iteration2 dark m).state = m.state :=
  rfl

theorem cn_mix_state (E : Ext) (useAes dark : Int) (m : Frame) :
    (cn_mix E useAes dark m).state = m.state :=
  forLoop_proj Frame.state _ _ _
    (fun _ s => by rw [mix_iteration2_state, mix_iteration1_state])

theorem cn_mixed_state (E : Ext) (useAes dark : Int) (data : List Nat) (m : Frame) :
    (cn_mixed E useAes dark data m).state = E.hash_process data := by
  unfold cn_mixed
  rw [cn_mix_state]
  show (cn_fill _ _ _ _).state = _
  rw [cn_fill_state, cn_absorb_state]

/-- C3: at the start of the re-absorb phase the Keccak state is still the one
`hash_process` produced.  The phase leaves the scratchpad and the state as they were, and
for every lane `j < 8` the final `text` lane `j` is the left fold over
`i = 0 .. N/128 - 1` of `t -> pseudo_round (xor_blocks (t, scratchpad[i*128 + j*16 .. +16]))`
from bytes `64 + 16 j .. 64 + 16 j + 16` of that state, under the expanded key built from
state bytes 32..64: the XOR with the scratchpad block comes before the ten rounds. -/
theorem reabsorb_text_lanes (E : Ext) (useAes dark : Int) (data : List Nat) (m : Frame)
    (j : Nat) (hst : (E.hash_process data).length = 200)
    (hsw : ∀ x k, (E.aesb_pseudo_round x k).length = 16) (hj : j < 8) :
    (cn_mixed E useAes dark data m).state = E.hash_process data
      ∧ readBytes (cn_reabsorb E useAes dark (cn_mixed E useAes dark data m)).text
            (16 * j) 16
          = reabsorb_lane (pseudo_round E useAes)
              (expand_key E (readBytes (E.hash_process data) 32 32)
                (cn_mixed E useAes dark data m).expandedKey)
              (cn_mixed E useAes dark data m).long_state j
              (readBytes (E.hash_process data) (64 + 16 * j) 16)
              (scratchpad_size dark / 128)
      ∧ (cn_reabsorb E useAes dark (cn_mixed E useAes dark data m)).long_state
          = (cn_mixed E useAes dark data m).long_state
      ∧ (cn_reabsorb E useAes dark (cn_mixed E useAes dark data m)).state
          = E.hash_process data := by
  have hs := cn_mixed_state E useAes dark data m
  have hl : (cn_mixed E useAes dark data m).state.length = 200 := by rw [hs, hst]
  rw [cn_reabsorb_eq E useAes dark _ hl hsw]
  refine ⟨hs, ?_, rfl, hs⟩
  show readBytes (forLoop _ _ _) _ _ = _
  rw [reabsorb_loop_lane _ (pseudo_round_length E useAes hsw) _ _ _ j hj, hs,
    readBytes_readBytes _ 64 128 (16 * j) 16 (by omega)]

/-- Witness for C3: the stand-in collaborators on the empty input, light mode, software
path, lane 0. -/
theorem reabsorb_text_lanes_witness :
    (toyExt.hash_process []).length = 200
      ∧ (cn_mixed toyExt 0 1 [] lightFrame).state = toyExt.hash_process []
      ∧ readBytes (cn_reabsorb toyExt 0 1 (cn_mixed toyExt 0 1 [] lightFrame)).text
            (16 * 0) 16
          = reabsorb_lane (pseudo_round toyExt 0)
              (expand_key toyExt (readBytes (toyExt.hash_process []) 32 32)
                (cn_mixed toyExt 0 1 [] lightFrame).expandedKey)
              (cn_mixed toyExt 0 1 [] lightFrame).long_state 0
              (readBytes (toyExt.hash_process []) (64 + 16 * 0) 16)
              (scratchpad_size 1 / 128)
      ∧ (cn_reabsorb toyExt 0 1 (cn_mixed toyExt 0 1 [] lightFrame)).long_state
          = (cn_mixed toyExt 0 1 [] lightFrame).long_state
      ∧ (cn_reabsorb toyExt 0 1 (cn_mixed toyExt 0 1 [] lightFrame)).state
          = toyExt.hash_process [] :=
  ⟨toyExt_hash_process_length [],
    reabsorb_text_lanes toyExt 0 1 [] lightFrame 0 (toyExt_hash_process_length [])
      toyExt_aesb_pseudo_round_length (by decide)⟩

/-! ## The hardware pseudo-round -/

theorem readBytes_take (m : List Nat) (n off len : Nat) (h : off + len ≤ n) :
    readBytes (m.take n) off len = readBytes m off len := by
  have e : len ⊓ (n - off) = len := by omega
  simp only [readBytes, List.drop_take, List.take_take, e]

theorem R128_take (ek : List Nat) (r : Nat) (hr : r < 10) : R128 (ek.take 160) r = R128 ek r := by
  simp only [R128, readBytes_take ek 160 (16 * r) 16 (by omega)]

/-- C11: `aesni_pseudo_round(in, out, expandedKey)` writes to `out` the result of ten chained
`aesenc` rounds on the 16 bytes of `in`, round `r` (0 to 9, in that order) keyed with
`expandedKey[16 r .. 16 r + 16]`: the loaded input goes straight into round 0 (no whitening
XOR), all ten rounds are the same `aesenc` (no distinct final round), and only the first
160 bytes of `expandedKey` are read. -/
theorem aesni_pseudo_round_ten_rounds (aesenc : Nat → Nat → Nat) (inp expandedKey : List Nat) :
    aesni_pseudo_round aesenc inp expandedKey
        = mm_storeu_si128 ((List.range 10).foldl
            (fun d r => aesenc d (loadLE (readBytes expandedKey (16 * r) 16) % 2 ^ 128))
            (loadLE (readBytes inp 0 16) % 2 ^ 128))
      ∧ aesni_pseudo_round aesenc inp expandedKey
        = aesni_pseudo_round aesenc inp (expandedKey.take 160)
      ∧ (mm_storeu_si128 ((List.range 10).foldl
            (fun d r => aesenc d (loadLE (readBytes expandedKey (16 * r) 16) % 2 ^ 128))
            (loadLE (readBytes inp 0 16) % 2 ^ 128))).length = 16 := by
  refine ⟨?_, ?_, storeLE_length 16 _⟩
  · rw [aesni_pseudo_round_eq_spec]
    rfl
  · simp only [aesni_pseudo_round, R128_take expandedKey _ (by decide : 0 < 10),
      R128_take expandedKey _ (by decide : 1 < 10), R128_take expandedKey _ (by decide : 2 < 10),
      R128_take expandedKey _ (by decide : 3 < 10), R128_take expandedKey _ (by decide : 4 < 10),
      R128_take expandedKey _ (by decide : 5 < 10), R128_take expandedKey _ (by decide : 6 < 10),
      R128_take expandedKey _ (by decide : 7 < 10), R128_take expandedKey _ (by decide : 8 < 10),
      R128_take expandedKey _ (by decide : 9 < 10)]

/-! ## Sizes and loop counts -/

theorem cn_mix_eq_loop (E : Ext) (useAes dark : Int) (m : Frame) :
    cn_mix E useAes dark m
      = forLoop ((if dark ≠ 0 then ITER_DARK else ITER) / 2) (fun _ m => mix_pass E useAes dark m)
          m :=
  rfl

/-- C12: the size constants are `MEMORY = 2097152`, `ITER = 1048576`, `TOTALBLOCKS = 131072`,
`MEMORY_DARK = 524288`, `ITER_DARK = 262144`, `TOTALBLOCKS_DARK = 32768` and
`INIT_SIZE_BYTE = 128`; so the fill and re-absorb loops run 16384 (full) or 4096 (light)
passes and the mixing loop runs 524288 (full) or 131072 (light) passes. -/
theorem size_constants (E : Ext) (useAes dark : Int) (m : Frame) :
    MEMORY = 2097152 ∧ ITER = 1048576 ∧ TOTALBLOCKS = 131072
      ∧ MEMORY_DARK = 524288 ∧ ITER_DARK = 262144 ∧ TOTALBLOCKS_DARK = 32768
      ∧ INIT_SIZE_BYTE = 128
      ∧ cn_fill E useAes dark m
          = forLoop (if dark ≠ 0 then 4096 else 16384) (fill_gen (pseudo_round E useAes)) m
      ∧ cn_reabsorb E useAes dark m
          = forLoop (if dark ≠ 0 then 4096 else 16384) (reabsorb_gen (pseudo_round E useAes))
              { m with
                text := readBytes m.state 64 INIT_SIZE_BYTE
                expandedKey :=
                  expand_key E (readBytes m.state 32 AES_KEY_SIZE) m.expandedKey }
      ∧ cn_mix E useAes dark m
          = forLoop (if dark ≠ 0 then 131072 else 524288)
              (fun _ m => mix_pass E useAes dark m) m := by
  have hc : scratchpad_size dark / INIT_SIZE_BYTE = if dark ≠ 0 then 4096 else 16384 := by
    unfold scratchpad_size
    split_ifs <;> decide
  have hi : (if dark ≠ 0 then ITER_DARK else ITER) / 2
      = if dark ≠ 0 then 131072 else 524288 := by
    split_ifs <;> decide
  refine ⟨by decide, by decide, by decide, by decide, by decide, by decide, by decide,
    ?_, ?_, ?_⟩
  · rw [cn_fill_eq_loop, hc]
  · rw [cn_reabsorb_eq_loop, hc]
  · rw [cn_mix_eq_loop, hi]

/-! ## The scratchpad index as arithmetic -/

theorem state_index_congr (x y : List Nat) (dark : Int) (h : U64 y 0 = U64 x 0) :
    state_index y dark = state_index x dark := by
  unfold state_index
  rw [h]

theorem div_mod_of_bits (a b k : Nat)
    (h : ∀ i, 4 ≤ i → i < 4 + k → b.testBit i = a.testBit i) :
    b / 16 % 2 ^ k = a / 16 % 2 ^ k := by
  apply Nat.eq_of_testBit_eq
  intro i
  have e : ∀ n : Nat, n / 16 = n >>> 4 := fun n => by rw [Nat.shiftRight_eq_div_pow]
  rw [Nat.testBit_mod_two_pow, Nat.testBit_mod_two_pow, e a, e b, Nat.testBit_shiftRight,
    Nat.testBit_shiftRight]
  by_cases hi : i < k
  · rw [h (4 + i) (by omega) (by omega)]
  · simp [hi]

/-- C18: with `x0` the low 64-bit limb of `x` (its first 8 bytes, little-endian) and `T` the
block count (131072 = 2^17 for `dark = 0`, 32768 = 2^15 otherwise),
`state_index(x) = 16 * ((x0 div 16) mod T) = (x0 mod (16 T)) - (x0 mod 16)`; a value `y`
whose low limb agrees with `x0` on bits `4 .. 4 + log2 T - 1` has the same index, and the
bytes of `x` after the first 8 (the high limb) do not matter. -/
theorem state_index_formula (x y : List Nat) (dark : Int)
    (hbits : ∀ i, 4 ≤ i → i < 4 + (if dark = 0 then 17 else 15) →
      (U64 y 0).testBit i = (U64 x 0).testBit i) :
    U64 x 0 = loadLE (x.take 8) % 2 ^ 64
      ∧ state_index x dark = 16 * ((U64 x 0 / 16) % (if dark = 0 then 131072 else 32768))
      ∧ state_index x dark
          = U64 x 0 % (16 * (if dark = 0 then 131072 else 32768)) - U64 x 0 % 16
      ∧ (if dark = 0 then 131072 else 32768) = 2 ^ (if dark = 0 then 17 else 15)
      ∧ state_index y dark = state_index x dark
      ∧ state_index (x.take 8) dark = state_index x dark := by
  have htake : U64 (x.take 8) 0 = U64 x 0 := by
    simp only [U64, readBytes_take x 8 (8 * 0) 8 (by omega)]
  refine ⟨by simp only [U64, readBytes, Nat.mul_zero, List.drop_zero], ?_, ?_, ?_, ?_,
    state_index_congr _ _ dark htake⟩
  · rw [state_index_eq]
    by_cases h : dark = 0
    · simp only [h, ne_eq, not_true_eq_false, if_false, if_true, TOTALBLOCKS_eq]
      norm_num
    · simp only [h, ne_eq, not_false_eq_true, if_false, if_true, TOTALBLOCKS_DARK_eq]
      norm_num
  · rw [state_index_eq]
    by_cases h : dark = 0
    · simp only [h, ne_eq, not_true_eq_false, if_false, if_true, TOTALBLOCKS_eq]
      omega
    · simp only [h, ne_eq, not_false_eq_true, if_false, if_true, TOTALBLOCKS_DARK_eq]
      omega
  · split_ifs <;> norm_num
  · rw [state_index_eq, state_index_eq]
    by_cases h : dark = 0
    · simp only [h, ne_eq, not_true_eq_false, if_false, if_true, TOTALBLOCKS_eq] at hbits ⊢
      rw [div_mod_of_bits (U64 x 0) (U64 y 0) 17 hbits]
    · simp only [h, ne_eq, not_false_eq_true, if_false, if_true, TOTALBLOCKS_DARK_eq]
        at hbits ⊢
      rw [div_mod_of_bits (U64 x 0) (U64 y 0) 15 hbits]

/-- Witness for C18: `blockMax0` (low limb `2^64 - 1`) against a block of `0xff` bytes, which
differs from it in the high limb only. -/
theorem state_index_formula_witness :
    (∀ i, 4 ≤ i → i < 4 + (if (0 : Int) = 0 then 17 else 15) →
        (U64 (List.replicate 16 255) 0).testBit i = (U64 blockMax0 0).testBit i)
      ∧ U64 blockMax0 0 = loadLE (blockMax0.take 8) % 2 ^ 64
      ∧ state_index blockMax0 0
          = 16 * ((U64 blockMax0 0 / 16) % (if (0 : Int) = 0 then 131072 else 32768))
      ∧ state_index blockMax0 0
          = U64 blockMax0 0 % (16 * (if (0 : Int) = 0 then 131072 else 32768))
            - U64 blockMax0 0 % 16
      ∧ (if (0 : Int) = 0 then 131072 else 32768) = 2 ^ (if (0 : Int) = 0 then 17 else 15)
      ∧ state_index (List.replicate 16 255) 0 = state_index blockMax0 0
      ∧ state_index (blockMax0.take 8) 0 = state_index blockMax0 0 :=
  have h : U64 (List.replicate 16 255) 0 = U64 blockMax0 0 := by decide
  ⟨fun i _ _ => by rw [h],
    state_index_formula blockMax0 (List.replicate 16 255) 0 (fun i _ _ => by rw [h])⟩

/-! ## Swaps of blocks -/

theorem store64_loadLE (x : List Nat) (hl : x.length = 8) (hb : ∀ v ∈ x, v < 256) :
    store64 (loadLE x) = x := by
  have h := storeLE_loadLE x hb
  rw [hl] at h
  exact h

theorem stores_U64 (x : List Nat) (hx : IsBlock x) :
    store64 (U64 x 0) ++ store64 (U64 x 1) = x := by
  rw [U64_zero_of_block x hx, U64_one_of_block x hx,
    store64_loadLE (x.take 8) (by simp [hx.1]) (fun v hv => hx.2 v (List.mem_of_mem_take hv)),
    store64_loadLE (x.drop 8) (by simp [hx.1]) (fun v hv => hx.2 v (List.mem_of_mem_drop hv)),
    List.take_append_drop]

theorem swap_blocks_eq (x y : List Nat) (hx : IsBlock x) (hy : IsBlock y) :
    swap_blocks x y = (y, x) := by
  simp only [swap_blocks, stores_U64 x hx, stores_U64 y hy]

theorem swap_blocks_length (x y : List Nat) :
    (swap_blocks x y).1.length = 16 ∧ (swap_blocks x y).2.length = 16 :=
  ⟨(IsBlock_stores _ _).1, (IsBlock_stores _ _).1⟩

theorem U64_swap_blocks_fst (x y : List Nat) : U64 (swap_blocks x y).1 0 = U64 y 0 := by
  simp only [swap_blocks, U64_stores_zero, Nat.mod_eq_of_lt (U64_lt y 0)]

theorem IsBlock_xor_blocks (x y : List Nat) : IsBlock (xor_blocks x y).1 :=
  IsBlock_stores _ _

theorem xor_swap_swap_eq (a b p : List Nat) (ha : IsBlock a) (hb : IsBlock b)
    (hp : IsBlock p) : xor_swap_swap a b p = (p, a, xorBytes b p) := by
  have hx : IsBlock (xorBytes b p) := by
    rw [← xor_blocks_eq_xorBytes b p hb hp]
    exact IsBlock_xor_blocks b p
  simp only [xor_swap_swap, xor_blocks_eq_xorBytes b p hb hp, swap_blocks_eq _ _ hx hp,
    swap_blocks_eq _ _ ha hp]

theorem xor_swap_swap_length (a b p : List Nat) : (xor_swap_swap a b p).2.2.length = 16 :=
  (swap_blocks_length _ _).2

theorem U64_xor_swap_swap (a b p : List Nat) : U64 (xor_swap_swap a b p).1 0 = U64 p 0 := by
  simp only [xor_swap_swap, U64_swap_blocks_fst]

/-! ## One pass of the mixing loop -/

theorem single_round_length (E : Ext) (useAes : Int)
    (hsw : ∀ x k, (E.aesb_single_round x k).length = 16) (x k : List Nat) :
    (single_round E useAes x k).length = 16 := by
  unfold single_round
  split_ifs
  · exact storeLE_length 16 _
  · exact hsw x k

theorem readBytes_writeBytes_same_len (m : List Nat) (off n : Nat) (src : List Nat)
    (h : off ≤ m.length) (hn : src.length = n) :
    readBytes (writeBytes m off src) off n = src := by
  rw [← hn]
  exact readBytes_writeBytes_same m off src h

theorem mix_iteration1_write (E : Ext) (useAes dark : Int) (m : Frame) :
    mix_iteration1 E useAes dark m
      = (fun m1 : Frame =>
          { m1 with
            a := (xor_swap_swap m1.a m1.b
              (readBytes m1.long_state (state_index m.a dark) 16)).1
            b := (xor_swap_swap m1.a m1.b
              (readBytes m1.long_state (state_index m.a dark) 16)).2.1
            long_state := writeBytes m1.long_state (state_index m.a dark)
              (xor_swap_swap m1.a m1.b
                (readBytes m1.long_state (state_index m.a dark) 16)).2.2 })
          { m with
            long_state := writeBytes m.long_state (state_index m.a dark)
              (single_round E useAes (readBytes m.long_state (state_index m.a dark) 16)
                m.a) } := by
  by_cases h : useAes ≠ 0
  · simp only [mix_iteration1, single_round, xor_swap_swap, if_pos h, AES_BLOCK_SIZE]
  · simp only [mix_iteration1, single_round, xor_swap_swap, if_neg h, AES_BLOCK_SIZE]

theorem mix_iteration1_eq_seq (E : Ext) (useAes dark : Int) (m : Frame)
    (hS : scratchpad_size dark ≤ m.long_state.length)
    (hsw : ∀ x k, (E.aesb_single_round x k).length = 16) :
    mix_iteration1 E useAes dark m
      = { m with
          a := (xor_swap_swap m.a m.b
            (single_round E useAes (readBytes m.long_state (state_index m.a dark) 16) m.a)).1
          b := (xor_swap_swap m.a m.b
            (single_round E useAes (readBytes m.long_state (state_index m.a dark) 16) m.a)).2.1
          long_state := writeBytes m.long_state (state_index m.a dark)
            (xor_swap_swap m.a m.b
              (single_round E useAes (readBytes m.long_state (state_index m.a dark) 16)
                m.a)).2.2 } := by
  have hj := state_index_add_le m.a dark
  have hc := single_round_length E useAes hsw
    (readBytes m.long_state (state_index m.a dark) 16) m.a
  rw [mix_iteration1_write]
  simp only []
  rw [readBytes_writeBytes_same_len _ _ 16 _ (by omega) hc,
    writeBytes_writeBytes_same _ _ _ _ (by omega) (by rw [xor_swap_swap_length, hc])]
theorem single_round_IsBlock (E : Ext) (useAes : Int)
    (hsw : ∀ x k, IsBlock (E.aesb_single_round x k)) (x k : List Nat) :
    IsBlock (single_round E useAes x k) := by
  unfold single_round
  split_ifs
  · exact ⟨storeLE_length 16 _, storeLE_lt 16 _⟩
  · exact hsw x k

/-- C14: for registers `a`, `b` (blocks) and a scratchpad `S` of at least the size of the
mode, with `j = state_index(a)` and `c = single_round(S[j], key = a)`: after sub-iteration 1
of the mixing loop the scratchpad block at `j` holds `b XOR c`, register `a` holds `c` and
register `b` holds the original `a`. -/
theorem mix_iteration1_effect (E : Ext) (useAes dark : Int) (m : Frame)
    (ha : IsBlock m.a) (hb : IsBlock m.b)
    (hS : scratchpad_size dark ≤ m.long_state.length)
    (hsw : ∀ x k, IsBlock (E.aesb_single_round x k)) :
    readBytes (mix_iteration1 E useAes dark m).long_state (state_index m.a dark) 16
        = xorBytes m.b
            (single_round E useAes (readBytes m.long_state (state_index m.a dark) 16) m.a)
      ∧ (mix_iteration1 E useAes dark m).a
        = single_round E useAes (readBytes m.long_state (state_index m.a dark) 16) m.a
      ∧ (mix_iteration1 E useAes dark m).b = m.a := by
  have hj := state_index_add_le m.a dark
  have hc := single_round_IsBlock E useAes hsw
    (readBytes m.long_state (state_index m.a dark) 16) m.a
  rw [mix_iteration1_eq_seq E useAes dark m hS (fun x k => (hsw x k).1),
    xor_swap_swap_eq _ _ _ ha hb hc]
  refine ⟨?_, rfl, rfl⟩
  have hl : (xorBytes m.b
      (single_round E useAes (readBytes m.long_state (state_index m.a dark) 16) m.a)).length
      = 16 := by
    simp only [xorBytes, List.length_zipWith, hb.1, hc.1, min_self]
  exact readBytes_writeBytes_same_len _ _ 16 _ (by omega) hl

theorem IsBlock_lightFrame_block (off : Nat) (h : off + 16 ≤ 524288) :
    IsBlock (readBytes lightFrame.long_state off 16) := by
  have hl := lightFrame_long_state_length
  refine ⟨readBytes_length _ off 16 (by omega), ?_⟩
  intro v hv
  have hv2 : v ∈ uninit MEMORY_DARK [1, 2, 3] :=
    List.mem_of_mem_drop (List.mem_of_mem_take hv)
  simp only [uninit, List.mem_append, List.mem_replicate] at hv2
  rcases hv2 with h1 | h1
  · have h2 := List.mem_of_mem_take h1
    simp only [List.mem_cons, List.mem_singleton, List.not_mem_nil, or_false] at h2
    omega
  · omega

theorem toyExt_aesb_single_round_IsBlock (x k : List Nat) :
    IsBlock (toyExt.aesb_single_round x k) :=
  ⟨storeLE_length 16 _, storeLE_lt 16 _⟩

/-- Witness for C14: the stand-in collaborators on a light-mode frame, software path. -/
theorem mix_iteration1_effect_witness :
    IsBlock mixFrame.a ∧ IsBlock mixFrame.b
      ∧ scratchpad_size 1 ≤ mixFrame.long_state.length
      ∧ readBytes (mix_iteration1 toyExt 0 1 mixFrame).long_state
            (state_index mixFrame.a 1) 16
          = xorBytes mixFrame.b
              (single_round toyExt 0
                (readBytes mixFrame.long_state (state_index mixFrame.a 1) 16) mixFrame.a)
      ∧ (mix_iteration1 toyExt 0 1 mixFrame).a
          = single_round toyExt 0
              (readBytes mixFrame.long_state (state_index mixFrame.a 1) 16) mixFrame.a
      ∧ (mix_iteration1 toyExt 0 1 mixFrame).b = mixFrame.a :=
  have hS : scratchpad_size 1 ≤ mixFrame.long_state.length := by
    rw [show mixFrame.long_state = lightFrame.long_state from rfl,
      lightFrame_long_state_length, scratchpad_size_one]
  ⟨by decide, by decide, hS,
    mix_iteration1_effect toyExt 0 1 mixFrame (by decide) (by decide) hS
      toyExt_aesb_single_round_IsBlock⟩

theorem mix_iteration2_long_state (dark : Int) (m : Frame) :
    (mix_iteration2 dark m).long_state
      = writeBytes m.long_state (state_index m.a dark)
          (swap_blocks
            (sum_half_blocks m.b (mul m.a (readBytes m.long_state (state_index m.a dark) 16))).1
            (readBytes m.long_state (state_index m.a dark) 16)).2 :=
  rfl

/-- C15: for registers `a` (a block), `b` and a scratchpad `S` at the start of sub-iteration
2, with `j = state_index(a)`, `p0 = S[j]` (a block), `d = mul(a, p0)` and
`t = sum_half_blocks(b, d)`: after sub-iteration 2 the scratchpad block at `j` holds `t`,
register `a` holds `p0 XOR t` and register `b` holds the `a` the sub-iteration started
with. -/
theorem mix_iteration2_effect (dark : Int) (m : Frame) (ha : IsBlock m.a)
    (hp : IsBlock (readBytes m.long_state (state_index m.a dark) 16)) :
    readBytes (mix_iteration2 dark m).long_state (state_index m.a dark) 16
        = (sum_half_blocks m.b
            (mul m.a (readBytes m.long_state (state_index m.a dark) 16))).1
      ∧ (mix_iteration2 dark m).a
        = xorBytes (readBytes m.long_state (state_index m.a dark) 16)
            (sum_half_blocks m.b
              (mul m.a (readBytes m.long_state (state_index m.a dark) 16))).1
      ∧ (mix_iteration2 dark m).b = m.a := by
  have ht : IsBlock (sum_half_blocks m.b
      (mul m.a (readBytes m.long_state (state_index m.a dark) 16))).1 := IsBlock_stores _ _
  have hj : state_index m.a dark ≤ m.long_state.length := by
    have h := hp.1
    simp only [readBytes, List.length_take, List.length_drop] at h
    omega
  have hsw := swap_blocks_eq _ _ ht hp
  have hr : readBytes (writeBytes m.long_state (state_index m.a dark)
      (sum_half_blocks m.b (mul m.a (readBytes m.long_state (state_index m.a dark) 16))).1)
      (state_index m.a dark) 16
      = (sum_half_blocks m.b
          (mul m.a (readBytes m.long_state (state_index m.a dark) 16))).1 :=
    readBytes_writeBytes_same_len _ _ 16 _ hj ht.1
  have hx : IsBlock (xorBytes (readBytes m.long_state (state_index m.a dark) 16)
      (sum_half_blocks m.b
        (mul m.a (readBytes m.long_state (state_index m.a dark) 16))).1) := by
    rw [← xor_blocks_eq_xorBytes _ _ hp ht]
    exact IsBlock_xor_blocks _ _
  simp only [mix_iteration2, AES_BLOCK_SIZE, hsw, hr, xor_blocks_eq_xorBytes _ _ hp ht,
    swap_blocks_eq _ _ ha hx, and_self]

/-- Witness for C15: a light-mode frame with `a = blockOne`, `b = blockMax0`. -/
theorem mix_iteration2_effect_witness :
    IsBlock mixFrame.a
      ∧ IsBlock (readBytes mixFrame.long_state (state_index mixFrame.a 1) 16)
      ∧ readBytes (mix_iteration2 1 mixFrame).long_state (state_index mixFrame.a 1) 16
          = (sum_half_blocks mixFrame.b
              (mul mixFrame.a
                (readBytes mixFrame.long_state (state_index mixFrame.a 1) 16))).1
      ∧ (mix_iteration2 1 mixFrame).a
          = xorBytes (readBytes mixFrame.long_state (state_index mixFrame.a 1) 16)
              (sum_half_blocks mixFrame.b
                (mul mixFrame.a
                  (readBytes mixFrame.long_state (state_index mixFrame.a 1) 16))).1
      ∧ (mix_iteration2 1 mixFrame).b = mixFrame.a :=
  have hp : IsBlock (readBytes mixFrame.long_state (state_index mixFrame.a 1) 16) := by
    have h := state_index_add_le mixFrame.a 1
    rw [scratchpad_size_one] at h
    exact IsBlock_lightFrame_block _ h
  ⟨by decide, hp, mix_iteration2_effect 1 mixFrame (by decide) hp⟩

/-- C16 (amended): for blocks `a`, `b` and a scratchpad block `p`, the sequence
`xor_blocks(b, p); swap_blocks(b, p); swap_blocks(a, b)` of the first sub-iteration ends with
register `a` holding the value the scratchpad block held just before the XOR, register `b`
holding the `a` the sequence started with, and the scratchpad block holding `b XOR p`. -/
theorem xor_swap_swap_registers (a b p : List Nat) (ha : IsBlock a) (hb : IsBlock b)
    (hp : IsBlock p) :
    (xor_swap_swap a b p).1 = p ∧ (xor_swap_swap a b p).2.1 = a
      ∧ (xor_swap_swap a b p).2.2 = xorBytes b p := by
  rw [xor_swap_swap_eq a b p ha hb hp]
  exact ⟨rfl, rfl, rfl⟩

/-- Witness for C16 (amended): `a = blockOne`, `b = blockZero`, `p = blockMax0`. -/
theorem xor_swap_swap_registers_witness :
    IsBlock blockOne ∧ IsBlock blockZero ∧ IsBlock blockMax0
      ∧ (xor_swap_swap blockOne blockZero blockMax0).1 = blockMax0
      ∧ (xor_swap_swap blockOne blockZero blockMax0).2.1 = blockOne
      ∧ (xor_swap_swap blockOne blockZero blockMax0).2.2 = xorBytes blockZero blockMax0 :=
  ⟨by decide, by decide, by decide,
    xor_swap_swap_registers blockOne blockZero blockMax0 (by decide) (by decide) (by decide)⟩

/-- C16 as stated fails: with `a = blockOne`, `b = blockZero` and the scratchpad block
`p = blockMax0`, the sequence ends with register `b` holding `blockOne` (the old `a`), not
the pre-XOR scratchpad value `blockMax0`. -/
theorem xor_swap_swap_b_not_scratchpad :
    IsBlock blockOne ∧ IsBlock blockZero ∧ IsBlock blockMax0
      ∧ (xor_swap_swap blockOne blockZero blockMax0).2.1 = blockOne
      ∧ (xor_swap_swap blockOne blockZero blockMax0).2.1 ≠ blockMax0 := by
  decide

/-! ## What a pass of the mixing loop leaves alone -/

theorem getElem?_writeBytes_outside (m : List Nat) (off : Nat) (src : List Nat) (k : Nat)
    (h : off + src.length ≤ m.length) (hk : k < off ∨ off + src.length ≤ k) :
    (writeBytes m off src)[k]? = m[k]? := by
  have hl : (m.take off).length = off := by rw [List.length_take]; omega
  unfold writeBytes
  rcases hk with hk | hk
  · rw [List.append_assoc, List.getElem?_append_left (by omega),
      List.getElem?_take_of_lt hk]
  · rw [List.getElem?_append_right (by rw [List.length_append, hl]; omega),
      List.length_append, hl, List.getElem?_drop]
    congr 1
    omega

/-- C17: one pass of the mixing loop, from registers `a`, `b` and a scratchpad `S` of at
least the size of the mode, leaves the length of the scratchpad as it was and leaves every
byte outside the two 16-byte blocks at `state_index(a)` and `state_index(c)`,
`c = single_round(S[state_index(a)], a)`, as it was (whether or not the two offsets
coincide). -/
theorem mix_pass_frame (E : Ext) (useAes dark : Int) (m : Frame) (k : Nat)
    (hS : scratchpad_size dark ≤ m.long_state.length)
    (hsw : ∀ x k, (E.aesb_single_round x k).length = 16)
    (hk1 : k < state_index m.a dark ∨ state_index m.a dark + 16 ≤ k)
    (hk2 : k < state_index
          (single_round E useAes (readBytes m.long_state (state_index m.a dark) 16) m.a) dark
        ∨ state_index
          (single_round E useAes (readBytes m.long_state (state_index m.a dark) 16) m.a) dark
            + 16 ≤ k) :
    (mix_pass E useAes dark m).long_state[k]? = m.long_state[k]?
      ∧ (mix_pass E useAes dark m).long_state.length = m.long_state.length := by
  have hj1 := state_index_add_le m.a dark
  have hj2 := state_index_add_le
    (single_round E useAes (readBytes m.long_state (state_index m.a dark) 16) m.a) dark
  have ha1 : state_index (mix_iteration1 E useAes dark m).a dark
      = state_index
          (single_round E useAes (readBytes m.long_state (state_index m.a dark) 16) m.a)
          dark := by
    rw [mix_iteration1_eq_seq E useAes dark m hS hsw]
    exact state_index_congr
      (single_round E useAes (readBytes m.long_state (state_index m.a dark) 16) m.a)
      (xor_swap_swap m.a m.b
        (single_round E useAes (readBytes m.long_state (state_index m.a dark) 16) m.a)).1
      dark (U64_xor_swap_swap _ _ _)
  have hl1 : (mix_iteration1 E useAes dark m).long_state.length = m.long_state.length := by
    rw [mix_iteration1_eq_seq E useAes dark m hS hsw]
    exact writeBytes_length _ _ _ (by rw [xor_swap_swap_length]; omega)
  have hg1 : (mix_iteration1 E useAes dark m).long_state[k]? = m.long_state[k]? := by
    rw [mix_iteration1_eq_seq E useAes dark m hS hsw]
    exact getElem?_writeBytes_outside _ _ _ k (by rw [xor_swap_swap_length]; omega)
      (by rw [xor_swap_swap_length]; exact hk1)
  unfold mix_pass
  rw [mix_iteration2_long_state, ha1]
  refine ⟨?_, ?_⟩
  · rw [getElem?_writeBytes_outside _ _ _ k
      (by rw [(swap_blocks_length _ _).2, hl1]; omega)
      (by rw [(swap_blocks_length _ _).2]; exact hk2), hg1]
  · rw [writeBytes_length _ _ _ (by rw [(swap_blocks_length _ _).2, hl1]; omega), hl1]

theorem readBytes_uninit_head (n : Nat) (hn : 16 ≤ n) :
    readBytes (uninit n [1, 2, 3]) 0 16 = 1 :: 2 :: 3 :: List.replicate 13 0 := by
  have e : n - 3 = 13 + (n - 16) := by omega
  have ht : List.take n [1, 2, 3] = [1, 2, 3] := List.take_of_length_le (by simp; omega)
  have hl : ([1, 2, 3] ++ List.replicate 13 0).length = 16 := by simp
  simp only [uninit, readBytes, List.drop_zero, ht, List.length_cons, List.length_nil, e,
    List.replicate_add]
  rw [← List.append_assoc, List.take_left' hl]
  rfl

theorem mixFrame_first_block :
    readBytes mixFrame.long_state 0 16 = 1 :: 2 :: 3 :: List.replicate 13 0 := by
  show readBytes (uninit MEMORY_DARK [1, 2, 3]) 0 16 = _
  exact readBytes_uninit_head MEMORY_DARK (by decide)

theorem mixFrame_offsets :
    state_index mixFrame.a 1 = 0
      ∧ state_index
          (single_round toyExt 0
            (readBytes mixFrame.long_state (state_index mixFrame.a 1) 16) mixFrame.a) 1
        = 67072 := by
  have e0 : state_index mixFrame.a 1 = 0 := by decide
  refine ⟨e0, ?_⟩
  rw [e0, mixFrame_first_block]
  decide

/-- Witness for C17: the stand-in collaborators on a light-mode frame, software path; the
pass writes the blocks at offsets 0 and 67072, and byte 16 is outside both. -/
theorem mix_pass_frame_witness :
    scratchpad_size 1 ≤ mixFrame.long_state.length
      ∧ (16 < state_index mixFrame.a 1 ∨ state_index mixFrame.a 1 + 16 ≤ 16)
      ∧ (16 < state_index
            (single_round toyExt 0
              (readBytes mixFrame.long_state (state_index mixFrame.a 1) 16) mixFrame.a) 1
          ∨ state_index
            (single_round toyExt 0
              (readBytes mixFrame.long_state (state_index mixFrame.a 1) 16) mixFrame.a) 1
              + 16 ≤ 16)
      ∧ (mix_pass toyExt 0 1 mixFrame).long_state[16]? = mixFrame.long_state[16]?
      ∧ (mix_pass toyExt 0 1 mixFrame).long_state.length = mixFrame.long_state.length :=
  have hS : scratchpad_size 1 ≤ mixFrame.long_state.length := by
    rw [show mixFrame.long_state = lightFrame.long_state from rfl,
      lightFrame_long_state_length, scratchpad_size_one]
  have h1 : 16 < state_index mixFrame.a 1 ∨ state_index mixFrame.a 1 + 16 ≤ 16 :=
    Or.inr (by rw [mixFrame_offsets.1])
  have h2 : 16 < state_index
        (single_round toyExt 0
          (readBytes mixFrame.long_state (state_index mixFrame.a 1) 16) mixFrame.a) 1
      ∨ state_index
        (single_round toyExt 0
          (readBytes mixFrame.long_state (state_index mixFrame.a 1) 16) mixFrame.a) 1
          + 16 ≤ 16 :=
    Or.inl (by rw [mixFrame_offsets.2]; decide)
  ⟨hS, h1, h2,
    mix_pass_frame toyExt 0 1 mixFrame 16 hS (fun x k => storeLE_length 16 _) h1 h2⟩

/-! ## The state handed to the permutation -/

theorem cn_reabsorb_text_length (E : Ext) (useAes dark : Int) (m : Frame)
    (hst : m.state.length = 200) (hsw : ∀ x k, (E.aesb_pseudo_round x k).length = 16) :
    (cn_reabsorb E useAes dark m).text.length = 128 := by
  rw [cn_reabsorb_eq E useAes dark m hst hsw]
  have ht : (readBytes m.state 64 128).length = 128 := readBytes_length _ 64 128 (by omega)
  exact (reabsorb_loop_eq (pseudo_round E useAes) (pseudo_round_length E useAes hsw)
    (scratchpad_size dark / 128)
    { m with
      text := readBytes m.state 64 128
      expandedKey := expand_key E (readBytes m.state 32 32) m.expandedKey } ht).2

theorem readBytes_drop (m : List Nat) (n off len : Nat) :
    readBytes (m.drop n) off len = readBytes m (n + off) len := by
  simp only [readBytes, List.drop_drop]

theorem writeBytes_parts (st text : List Nat) (hst : st.length = 200)
    (ht : text.length = 128) :
    (writeBytes st 64 text).length = 200
      ∧ readBytes (writeBytes st 64 text) 0 64 = readBytes st 0 64
      ∧ readBytes (writeBytes st 64 text) 192 8 = readBytes st 192 8
      ∧ readBytes (writeBytes st 64 text) 64 128 = text := by
  have hl : (st.take 64).length = 64 := by rw [List.length_take]; omega
  refine ⟨(writeBytes_length _ _ _ (by omega)).trans hst, ?_, ?_,
    readBytes_writeBytes_same_len _ _ 128 _ (by omega) ht⟩
  · unfold writeBytes
    rw [List.append_assoc, readBytes_append_left _ _ 0 64 (by omega),
      readBytes_take st 64 0 64 (by omega)]
  · unfold writeBytes
    have h2 : (st.take 64 ++ text).length = 192 := by rw [List.length_append, hl, ht]
    have h3 := readBytes_append_right (st.take 64 ++ text) (st.drop (64 + text.length)) 0 8
    rw [h2, Nat.add_zero] at h3
    rw [h3, ht, readBytes_drop]

/-- C19: the state handed to `hash_permutation` has 200 bytes and differs from the state
`hash_process` produced only in bytes 64..192: bytes 0..64 and bytes 192..200 are those of
the absorbed state, and bytes 64..192 are the final 128-byte `text` of the re-absorb
phase. -/
theorem permutation_input_state (E : Ext) (cpu : Cpu) (data : List Nat) (dark : Int)
    (m : Frame) (hst : (E.hash_process data).length = 200)
    (hsw : ∀ x k, (E.aesb_pseudo_round x k).length = 16) :
    (cn_slow_hash_internal E cpu data dark m).state
        = E.hash_permutation (cn_store_text (cn_reabsorb E (check_aes_hw cpu) dark
            (cn_mixed E (check_aes_hw cpu) dark data m))).state
      ∧ (cn_store_text (cn_reabsorb E (check_aes_hw cpu) dark
            (cn_mixed E (check_aes_hw cpu) dark data m))).state.length = 200
      ∧ readBytes (cn_store_text (cn_reabsorb E (check_aes_hw cpu) dark
            (cn_mixed E (check_aes_hw cpu) dark data m))).state 0 64
          = readBytes (E.hash_process data) 0 64
      ∧ readBytes (cn_store_text (cn_reabsorb E (check_aes_hw cpu) dark
            (cn_mixed E (check_aes_hw cpu) dark data m))).state 192 8
          = readBytes (E.hash_process data) 192 8
      ∧ readBytes (cn_store_text (cn_reabsorb E (check_aes_hw cpu) dark
            (cn_mixed E (check_aes_hw cpu) dark data m))).state 64 128
          = (cn_reabsorb E (check_aes_hw cpu) dark
              (cn_mixed E (check_aes_hw cpu) dark data m)).text := by
  have hs := cn_mixed_state E (check_aes_hw cpu) dark data m
  have hl : (cn_mixed E (check_aes_hw cpu) dark data m).state.length = 200 := by
    rw [hs, hst]
  have ht := cn_reabsorb_text_length E (check_aes_hw cpu) dark _ hl hsw
  have hrs : (cn_reabsorb E (check_aes_hw cpu) dark
      (cn_mixed E (check_aes_hw cpu) dark data m)).state = E.hash_process data := by
    rw [cn_reabsorb_eq E (check_aes_hw cpu) dark _ hl hsw]
    exact hs
  have hpre : (cn_store_text (cn_reabsorb E (check_aes_hw cpu) dark
      (cn_mixed E (check_aes_hw cpu) dark data m))).state
      = writeBytes (E.hash_process data) 64
          (cn_reabsorb E (check_aes_hw cpu) dark
            (cn_mixed E (check_aes_hw cpu) dark data m)).text := by
    show memcpy _ 64 _ 0 INIT_SIZE_BYTE = _
    rw [hrs, memcpy, INIT_SIZE_BYTE_eq, readBytes_all _ 128 ht]
  refine ⟨?_, ?_⟩
  · rw [cn_slow_hash_internal_eq]
    by_cases hd : dark ≠ 0
    · simp only [cn_finish, if_pos hd, cn_mixed]
    · simp only [cn_finish, if_neg hd, cn_mixed]
  · rw [hpre]
    exact writeBytes_parts _ _ hst ht

/-- Witness for C19: the stand-in collaborators on the empty input, light mode, no
AES-NI. -/
theorem permutation_input_state_witness :
    (toyExt.hash_process []).length = 200
      ∧ (cn_slow_hash_internal toyExt cpuPlain [] 1 lightFrame).state
          = toyExt.hash_permutation (cn_store_text (cn_reabsorb toyExt (check_aes_hw cpuPlain) 1
              (cn_mixed toyExt (check_aes_hw cpuPlain) 1 [] lightFrame))).state
      ∧ (cn_store_text (cn_reabsorb toyExt (check_aes_hw cpuPlain) 1
            (cn_mixed toyExt (check_aes_hw cpuPlain) 1 [] lightFrame))).state.length = 200
      ∧ readBytes (cn_store_text (cn_reabsorb toyExt (check_aes_hw cpuPlain) 1
            (cn_mixed toyExt (check_aes_hw cpuPlain) 1 [] lightFrame))).state 0 64
          = readBytes (toyExt.hash_process []) 0 64
      ∧ readBytes (cn_store_text (cn_reabsorb toyExt (check_aes_hw cpuPlain) 1
            (cn_mixed toyExt (check_aes_hw cpuPlain) 1 [] lightFrame))).state 192 8
          = readBytes (toyExt.hash_process []) 192 8
      ∧ readBytes (cn_store_text (cn_reabsorb toyExt (check_aes_hw cpuPlain) 1
            (cn_mixed toyExt (check_aes_hw cpuPlain) 1 [] lightFrame))).state 64 128
          = (cn_reabsorb toyExt (check_aes_hw cpuPlain) 1
              (cn_mixed toyExt (check_aes_hw cpuPlain) 1 [] lightFrame)).text :=
  ⟨toyExt_hash_process_length [],
    permutation_input_state toyExt cpuPlain [] 1 lightFrame (toyExt_hash_process_length [])
      toyExt_aesb_pseudo_round_length⟩

end SlowHash
